import Mathlib

/-!
# Verification of the JSONB container library against its specification

This file is a shallow embedding, in Lean 4, of the parts of the `jsonb`
Rust crate that the specification's claims talk about:

* the tree-level data model of JSONB values (§3 of the spec), with object
  members stored as an association list in "stored order" and string /
  key payloads kept as raw byte lists;
* the comparator `compare` (`src/functions.rs`, `compare` /
  `compare_scalar` / `compare_array` / `compare_object`) and the
  comparable-key serializer `convert_to_comparable`;
* the mutators `concat`, `strip_nulls`, `object_insert` and the accessor
  `get_by_name` of `RawJsonb` (`src/functions.rs`);
* the JSONPath grammar parser (`src/jsonpath/parser.rs`, written with the
  `nom` parser-combinator library, which is modelled here by ordered-choice
  PEG combinators with the same commitment behaviour as `nom`);
* the JSONPath evaluator (`src/jsonpath/selector.rs`);
* the byte-level entry points `compare` (text fallback dispatch) and
  `RawJsonb::to_string` that operate on raw, possibly ill-formed byte
  slices.

Parts of the crate that the claims depend on but whose source files are
not part of the excerpt under verification (the container iterators, the
array/object builders, the number codec `number.rs`, the text-JSON parser
`parser.rs` and the serializer `ser.rs`) are modelled from the
specification's words; each such definition carries a doc comment that
says so.

Machine integers: the crate manipulates `u32` headers and JEntries.  All
containers handled here are tiny, far below every length mask, so header
words are represented as `Nat` with the explicit bit masks of
`src/constants.rs`; byte payloads are `List Nat` with every element
below 256.
-/

/-- The error kinds of the crate's `Error` enum that the embedded
functions can surface (plus `recursionLimit`, which stands for fuel
exhaustion of the byte-level recursions and is proved unreachable at the
uses that matter). -/
inductive JErr where
  | invalidJsonb
  | invalidJsonbHeader
  | invalidJsonbJEntry
  | invalidEof
  | invalidJson
  | invalidJsonPath
  | invalidJsonType
  | invalidCast
  | invalidNumber
  | invalidObject
  | objectDuplicateKey
  | panicUnreachable
  | recursionLimit
deriving DecidableEq, Repr

/-- Modelled from the spec (the number codec `number.rs` is not part of
the excerpt): a decoded JSONB number.  `int64` / `uint64` carry the exact
integer; `float64` carries the exact rational value of the (finite) IEEE
double; the non-finite payload kinds `NAN`, `INF`, `NEG_INF` of §3 get
their own constructors.  Per the codec contract, comparison is numeric. -/
inductive JNumber where
  | int64 (i : Int)
  | uint64 (u : Nat)
  | float64 (q : ℚ)
  | nan
  | inf
  | negInf
deriving DecidableEq, Repr

/-- A JSONB value tree.  Strings and object keys are raw UTF-8 byte
lists (the wire format stores them without further structure); object
members are kept in stored order.  A well-formed value has object keys
unique and sorted ascending by bytes (§3, invariant 2). -/
inductive Val where
  | null
  | bool (b : Bool)
  | num (n : JNumber)
  | str (s : List Nat)
  | arr (xs : List Val)
  | obj (es : List (List Nat × Val))
deriving Repr

/-- ASCII byte list of a Lean string literal (for readable test data). -/
def ascii (s : String) : List Nat := s.data.map Char.toNat

/-- Comparison of naturals as an `Ordering` (Rust's `usize::cmp` /
`u8::cmp`). -/
def natCompare (a b : Nat) : Ordering :=
  if a < b then .lt else if a = b then .eq else .gt

/-- Lexicographic comparison of byte lists; this is what Rust's
`str::cmp` / `[u8]::cmp` compute on the stored payload bytes. -/
def listCompare : List Nat → List Nat → Ordering
  | [], [] => .eq
  | [], _ :: _ => .lt
  | _ :: _, [] => .gt
  | a :: as, b :: bs =>
    match natCompare a b with
    | .eq => listCompare as bs
    | o => o

/-- Strict lexicographic order on byte lists, used as the key order of
object builders. -/
def listLt (a b : List Nat) : Bool := listCompare a b == .lt

/-- Comparison of two rationals as an `Ordering` (decidable, used for
the numeric comparison contract of the number codec). -/
def ratCompare (a b : ℚ) : Ordering :=
  if a < b then .lt else if b < a then .gt else .eq

/-- Modelled from the spec: map a decoded number to the extended line
used for comparison ("comparison is numeric (f64-promoted)", §3); the
non-finite kinds are ordered `-inf < finite < +inf < NaN`. -/
def JNumber.toRatx : JNumber → Option (Option ℚ ⊕ Unit)
  | .int64 i => some (.inl (some (i : ℚ)))
  | .uint64 u => some (.inl (some (u : ℚ)))
  | .float64 q => some (.inl (some q))
  | .negInf => some (.inl none)
  | .inf => none
  | .nan => some (.inr ())

/-- Numeric comparison of two decoded numbers (`Number::cmp`), modelled
from the spec's codec contract. -/
def numCompare (a b : JNumber) : Ordering :=
  match a, b with
  | .nan, .nan => .eq
  | .nan, _ => .gt
  | _, .nan => .lt
  | .inf, .inf => .eq
  | .inf, _ => .gt
  | _, .inf => .lt
  | .negInf, .negInf => .eq
  | .negInf, _ => .lt
  | _, .negInf => .gt
  | .int64 i, .int64 j => ratCompare i j
  | .int64 i, .uint64 u => ratCompare i u
  | .int64 i, .float64 q => ratCompare i q
  | .uint64 u, .int64 j => ratCompare u j
  | .uint64 u, .uint64 v => ratCompare u v
  | .uint64 u, .float64 q => ratCompare u q
  | .float64 q, .int64 j => ratCompare q j
  | .float64 q, .uint64 v => ratCompare q v
  | .float64 q, .float64 r => ratCompare q r

/-- The compare level of a value, mirroring `jentry_compare_level` in
`src/functions.rs` together with the level constants of
`src/constants.rs` (`NULL_LEVEL = 7` … `FALSE_LEVEL = 1`).  Both kinds
of containers receive `OBJECT_LEVEL = 5`, exactly as
`jentry_compare_level` maps `CONTAINER_TAG` to `OBJECT_LEVEL`. -/
def scalarLevel : Val → Nat
  | .null => 7
  | .arr _ => 5
  | .obj _ => 5
  | .str _ => 4
  | .num _ => 3
  | .bool true => 2
  | .bool false => 1

mutual

/-- Shallow embedding of the comparator of `src/functions.rs`
(`compare` / `compare_scalar` / `compare_container`): values of
different levels are ordered by level (`left_level.cmp(&right_level)`),
equal-level values are compared structurally.  The top-level dispatch of
`compare` on container tags (scalar-null above containers, any other
scalar below them, array above object) computes exactly the same
ordering, since the levels are `7 / 5 / 5 / 4 / 3 / 2 / 1`.  The
`Err(InvalidJsonbJEntry)` arm of `compare_scalar` corresponds to byte
patterns that the tree representation cannot express, so the function is
total here. -/
def compareVals (a b : Val) : Ordering :=
  if scalarLevel a ≠ scalarLevel b then natCompare (scalarLevel a) (scalarLevel b)
  else
    match a, b with
    | .null, .null => .eq
    | .bool _, .bool _ => .eq
    | .str s, .str t => listCompare s t
    | .num m, .num n => numCompare m n
    | .arr xs, .arr ys => compareList xs ys
    | .obj xs, .obj ys => compareObjList xs ys
    | .arr _, .obj _ => .gt
    | .obj _, .arr _ => .lt
    | _, _ => .eq

/-- Embedding of `compare_array`: element-wise comparison over the
common prefix with early exit, then comparison of the lengths. -/
def compareList : List Val → List Val → Ordering
  | [], [] => .eq
  | [], _ :: _ => .lt
  | _ :: _, [] => .gt
  | x :: xs, y :: ys =>
    match compareVals x y with
    | .eq => compareList xs ys
    | o => o

/-- Embedding of `compare_object`: pairwise over the common prefix of
stored order, each pair first by key (string comparison) and then by
value, then by member count. -/
def compareObjList : List (List Nat × Val) → List (List Nat × Val) → Ordering
  | [], [] => .eq
  | [], _ :: _ => .lt
  | _ :: _, [] => .gt
  | (k, v) :: xs, (k', v') :: ys =>
    match listCompare k k' with
    | .eq =>
      match compareVals v v' with
      | .eq => compareObjList xs ys
      | o => o
    | o => o

end

/-- Big-endian byte list of width `w` for a natural number (truncated to
`w` bytes). -/
def natToBytesBE (w n : Nat) : List Nat :=
  (List.range w).reverse.map (fun i => n / 256 ^ i % 256)

/-- Modelled from the spec: the 8-byte big-endian payload that
`scalar_convert_to_comparable` writes for a number.  The source promotes
the number to `f64` and applies the standard sortable-float transform to
the IEEE bit pattern; `number.rs` (the codec) is not part of the excerpt,
so this definition stands in with an order-preserving 8-byte big-endian
image of the numeric value (none of the claims settled here reaches a
number payload inside a comparable key). -/
def sortableNumBytes (n : JNumber) : List Nat :=
  let z : Int :=
    match n with
    | .nan => 2 ^ 64 - 1
    | .inf => 2 ^ 64 - 2
    | .negInf => 0
    | .int64 i => max 1 (min (2 ^ 64 - 3) (⌊(i : ℚ) * 2 ^ 20⌋ + 2 ^ 63))
    | .uint64 u => max 1 (min (2 ^ 64 - 3) (⌊(u : ℚ) * 2 ^ 20⌋ + 2 ^ 63))
    | .float64 q => max 1 (min (2 ^ 64 - 3) (⌊q * 2 ^ 20⌋ + 2 ^ 63))
  natToBytesBE 8 z.toNat

mutual

/-- Embedding of `scalar_convert_to_comparable` of `src/functions.rs`:
push the depth byte, then the level byte, then the payload — recursing
with `depth + 1` for containers (whose level byte is `ARRAY_LEVEL = 6`
or `OBJECT_LEVEL = 5`), raw string bytes for strings, and the sortable
8-byte image for numbers. -/
def scalarToComparable (depth : Nat) (v : Val) : List Nat :=
  match v with
  | .arr xs => depth :: 6 :: arrayToComparable (depth + 1) xs
  | .obj es => depth :: 5 :: objectToComparable (depth + 1) es
  | .null => [depth, 7]
  | .bool true => [depth, 2]
  | .bool false => [depth, 1]
  | .str s => depth :: 4 :: s
  | .num n => depth :: 3 :: sortableNumBytes n
  termination_by structural v

/-- Embedding of `array_convert_to_comparable`: each element in order at
the given depth. -/
def arrayToComparable (depth : Nat) (xs : List Val) : List Nat :=
  match xs with
  | [] => []
  | v :: rest => scalarToComparable depth v ++ arrayToComparable depth rest
  termination_by structural xs

/-- Embedding of `object_convert_to_comparable`: each member in stored
order at the given depth — the key first, through
`scalar_convert_to_comparable` on its STRING JEntry, whose image is the
depth byte, `STRING_LEVEL = 4`, then the key bytes — followed by the
value. -/
def objectToComparable (depth : Nat) (es : List (List Nat × Val)) : List Nat :=
  match es with
  | [] => []
  | (k, v) :: rest =>
    (depth :: 4 :: k) ++ scalarToComparable depth v ++ objectToComparable depth rest
  termination_by structural es

end

/-- Embedding of `convert_to_comparable` of `src/functions.rs` on a
well-formed (tree-representable) value: a scalar container defers to
`scalar_convert_to_comparable` at depth 0; an array or object container
pushes depth 0 and its level byte and recurses at depth 1. -/
def convertToComparable (v : Val) : List Nat :=
  match v with
  | .arr xs => 0 :: 6 :: arrayToComparable 1 xs
  | .obj es => 0 :: 5 :: objectToComparable 1 es
  | s => scalarToComparable 0 s

/-- Modelled from the spec (§4.3, `builder.rs` is not part of the
excerpt): one `ObjectBuilder` entry insertion into the accumulated,
key-sorted entry list — insert sorted ascending by key bytes, replacing
the stored value when the key is already present ("on duplicate keys,
keep the last pushed"). -/
def insertEntry : List (List Nat × Val) → List Nat × Val → List (List Nat × Val)
  | [], kv => [kv]
  | (k, v) :: rest, kv =>
    if listLt kv.1 k then kv :: (k, v) :: rest
    else if kv.1 = k then (kv.1, kv.2) :: rest
    else (k, v) :: insertEntry rest kv

/-- Modelled from the spec (§4.3): `ObjectBuilder::build_into` over the
sequence of `push_raw` calls — the emitted object stores the entries
sorted ascending by key, keeping, for duplicate keys, the value pushed
last. -/
def buildObject (pushes : List (List Nat × Val)) : List (List Nat × Val) :=
  pushes.foldl insertEntry []

/-- Embedding of `RawJsonb::concat` of `src/functions.rs`.  The case
split mirrors the source's match on the two container tags: object with
object goes through an `ObjectBuilder` fed first the left then the right
entries; array with array concatenates; the `(OBJECT|SCALAR, ARRAY)` and
`(ARRAY, OBJECT|SCALAR)` cases push the non-array operand as a single
element before/after the array's elements; the remaining scalar/object
pairs build the two-element array. -/
def concatVals (a b : Val) : Val :=
  match a, b with
  | .obj xs, .obj ys => .obj (buildObject (xs ++ ys))
  | .arr xs, .arr ys => .arr (xs ++ ys)
  | .arr xs, r => .arr (xs ++ [r])
  | l, .arr ys => .arr (l :: ys)
  | l, r => .arr [l, r]

/-- ASCII-lowercase of one byte (`u8::to_ascii_lowercase`). -/
def lowerByte (b : Nat) : Nat := if 65 ≤ b ∧ b ≤ 90 then b + 32 else b

/-- Rust's `str::eq_ignore_ascii_case` on the underlying bytes. -/
def eqIgnoreAsciiCase (a b : List Nat) : Bool :=
  a.map lowerByte == b.map lowerByte

/-- Embedding of the scan loop of `get_jentry_by_name` of
`src/functions.rs`: walk the members in stored order carrying the
candidate `result`; an exact key match returns its value at once; a
case-insensitive match is recorded only when `ignore_case` is set and no
candidate was recorded yet. -/
def getEntryByNameLoop (name : List Nat) (ic : Bool) :
    List (List Nat × Val) → Option Val → Option Val
  | [], res => res
  | (k, v) :: rest, res =>
    if name = k then some v
    else if ic && eqIgnoreAsciiCase name k && res.isNone then
      getEntryByNameLoop name ic rest (some v)
    else getEntryByNameLoop name ic rest res

/-- Embedding of `RawJsonb::get_by_name`: on an object container,
delegate to the `get_jentry_by_name` scan; scalar and array containers
yield `None`. -/
def getByName (v : Val) (name : List Nat) (ic : Bool) : Option Val :=
  match v with
  | .obj es => getEntryByNameLoop name ic es none
  | _ => none

mutual

/-- The element dispatch shared by the two strip loops of
`src/functions.rs`: a nested object or array is rebuilt through
`strip_nulls_object` / `strip_nulls_array` (with the object builder
applied on finalization), any other scalar is pushed raw. -/
def stripValC (v : Val) : Val :=
  match v with
  | .obj es => .obj (buildObject (stripObjEntries es))
  | .arr xs => .arr (stripArr xs)
  | x => x
  termination_by structural v

/-- Embedding of `strip_nulls_array` of `src/functions.rs`: array
elements are kept (null elements included); nested containers are
rebuilt recursively through the nested builders. -/
def stripArr (xs : List Val) : List Val :=
  match xs with
  | [] => []
  | v :: rest => stripValC v :: stripArr rest
  termination_by structural xs

/-- Embedding of `strip_nulls_object` of `src/functions.rs`: members
with a `NULL_TAG` value are skipped (`continue`), nested containers are
rebuilt recursively, other scalars are pushed unchanged; the surrounding
`ObjectBuilder` is applied by the caller. -/
def stripObjEntries (es : List (List Nat × Val)) : List (List Nat × Val) :=
  match es with
  | [] => []
  | (_, .null) :: rest => stripObjEntries rest
  | (k, v) :: rest => (k, stripValC v) :: stripObjEntries rest
  termination_by structural es

end

/-- Embedding of `RawJsonb::strip_nulls`: objects and arrays are rebuilt
through the recursive builders; a scalar container is copied verbatim. -/
def stripNulls (v : Val) : Val :=
  match v with
  | .obj es => .obj (buildObject (stripObjEntries es))
  | .arr xs => .arr (stripArr xs)
  | s => s

mutual

/-- The specification's description of `strip_nulls` (§4.5): recursively
drop every object member whose value is NULL, leave NULL array elements
and NULL scalars untouched. -/
def specStripNulls : Val → Val
  | .obj es => .obj (specStripObj es)
  | .arr xs => .arr (specStripArrList xs)
  | s => s

/-- Member-list part of `specStripNulls`: drop NULL-valued members,
recurse into the rest. -/
def specStripObj : List (List Nat × Val) → List (List Nat × Val)
  | [] => []
  | (k, v) :: rest =>
    match v with
    | .null => specStripObj rest
    | w => (k, specStripNulls w) :: specStripObj rest

/-- Element-list part of `specStripNulls`: keep every element (nulls
included), recurse into each. -/
def specStripArrList : List Val → List Val
  | [] => []
  | v :: rest => specStripNulls v :: specStripArrList rest

end

/-- Embedding of the insert-position scan loop of
`RawJsonb::object_insert` of `src/functions.rs`, written structurally:
on an exact key match the scan reports the position and the duplicate
flag (failing with `ObjectDuplicateKey` when `update_flag` is unset); as
long as the new key is greater the index advances past the member;
otherwise the loop breaks with the index accumulated so far. -/
def scanInsertPos (updateFlag : Bool) (newKey : List Nat) :
    List (List Nat) → Except JErr (Nat × Bool)
  | [] => .ok (0, false)
  | k :: rest =>
    if newKey = k then
      if updateFlag then .ok (0, true) else .error .objectDuplicateKey
    else if listLt k newKey then
      match scanInsertPos updateFlag newKey rest with
      | .ok (i, d) => .ok (i + 1, d)
      | .error e => .error e
    else .ok (0, false)

/-- Embedding of `RawJsonb::object_insert`: only object containers are
accepted (`InvalidObject` otherwise); the members before the insert
position, the new pair, and the remaining members (skipping the matched
original when replacing) are pushed into an `ObjectBuilder`. -/
def objectInsert (v : Val) (newKey : List Nat) (newVal : Val) (updateFlag : Bool) :
    Except JErr Val :=
  match v with
  | .obj es =>
    match scanInsertPos updateFlag newKey (es.map Prod.fst) with
    | .error e => .error e
    | .ok (idx, dup) =>
      let rest := if dup then es.drop (idx + 1) else es.drop idx
      .ok (.obj (buildObject (es.take idx ++ (newKey, newVal) :: rest)))
  | _ => .error .invalidObject

/-- First-match association lookup on the stored member list. -/
def alookup (k : List Nat) : List (List Nat × Val) → Option Val
  | [] => none
  | (k', v) :: rest => if k = k' then some v else alookup k rest

/-- Strict ascending byte-order sortedness of a key list (§3,
invariant 2: object keys unique and sorted ascending). -/
def keysSorted : List (List Nat) → Prop
  | [] => True
  | [_] => True
  | a :: b :: rest => listLt a b = true ∧ keysSorted (b :: rest)

/-! ## The JSONPath AST (`src/jsonpath/path.rs`, modelled from its uses
in `parser.rs` and `selector.rs`) and a model of the `nom` parser
combinators that `parser.rs` is written with.

`nom` is a PEG-style library: alternatives (`alt`) are tried in order and
the first succeeding branch is committed to — a later failure does not
re-enter an earlier successful sub-parser.  A parser is modelled as a
function from the remaining input to `Option (rest × result)`. -/

/-- A literal value inside a JSONPath filter expression
(`PathValue` of `path.rs`); selector-side decoded scalars are carried by
`number` / `string` over raw bytes. -/
inductive JPathValue where
  | null
  | boolean (b : Bool)
  | uint64 (u : Nat)
  | int64 (i : Int)
  | float64 (q : ℚ)
  | string (s : List Nat)
  | number (n : JNumber)
deriving DecidableEq, Repr

/-- The binary operators of the path grammar (`BinaryOperator`). -/
inductive BinOp where
  | eq | notEq | lt | lte | gt | gte | rmatch
  | inOp | nin | subsetof | anyof | noneof | size | empty
  | opAnd | opOr
deriving DecidableEq, Repr

mutual

/-- One JSONPath step (`Path` of `path.rs`). -/
inductive JPath where
  | root
  | current
  | dotWildcard
  | descentWildcard
  | bracketWildcard
  | colonField (s : List Char)
  | dotField (s : List Char)
  | descentField (s : List Char)
  | arrayIndex (i : Int)
  | arrayIndices (is : List Int)
  | objectField (s : List Char)
  | objectFields (ss : List (List Char))
  | arraySlice (first : Option Int) (last : Option Int) (step : Option Nat)
  | filterExpr (e : JExpr)

/-- A filter expression (`Expr` of `path.rs`). -/
inductive JExpr where
  | paths (ps : List JPath)
  | value (v : JPathValue)
  | binaryOp (op : BinOp) (l r : JExpr)

end

/-- A PEG parser over characters: remaining input to optional
(rest, result). -/
def P (α : Type) : Type := List Char → Option (List Char × α)

/-- Character list of a string literal. -/
def chars (s : String) : List Char := s.data

/-- Sequential composition of parsers. -/
def pbind {α β : Type} (p : P α) (f : α → P β) : P β := fun s =>
  match p s with
  | none => none
  | some (s', a) => f a s'

/-- Map over a parser result (`nom::combinator::map`). -/
def pmap {α β : Type} (f : α → β) (p : P α) : P β := fun s =>
  match p s with
  | none => none
  | some (s', a) => some (s', f a)

/-- Replace a parser result (`nom::combinator::value`). -/
def pconst {α β : Type} (b : β) (p : P α) : P β := pmap (fun _ => b) p

/-- Parser that always succeeds with a result and no consumption. -/
def ppure {α : Type} (a : α) : P α := fun s => some (s, a)

/-- Parser that always fails. -/
def pfail {α : Type} : P α := fun _ => none

/-- Ordered choice of two parsers: the second runs only when the first
fails (PEG backtracking on failure, exactly `nom`'s `alt` behaviour). -/
def porelse {α : Type} (p q : P α) : P α := fun s =>
  match p s with
  | none => q s
  | r => r

/-- Ordered choice over a list of parsers (`nom::branch::alt`). -/
def palt {α : Type} (ps : List (P α)) : P α := ps.foldr porelse pfail

/-- A single expected character (`nom::character::complete::char`). -/
def pchar (c : Char) : P Char := fun s =>
  match s with
  | c' :: rest => if c' = c then some (rest, c) else none
  | [] => none

/-- A literal tag (`nom::bytes::complete::tag`). -/
def ptag (t : List Char) : P (List Char) := fun s =>
  if s.take t.length = t then some (s.drop t.length, t) else none

/-- A case-insensitive tag (`nom::bytes::complete::tag_no_case`,
ASCII case folding). -/
def ptagNoCase (t : List Char) : P (List Char) := fun s =>
  if (s.take t.length).map Char.toLower = t.map Char.toLower then
    some (s.drop t.length, s.take t.length)
  else none

/-- One of the given characters (`nom::character::complete::one_of`). -/
def poneOf (cs : List Char) : P Char := fun s =>
  match s with
  | c :: rest => if cs.contains c then some (rest, c) else none
  | [] => none

/-- Optional parser (`nom::combinator::opt`): never fails. -/
def popt {α : Type} (p : P α) : P (Option α) := fun s =>
  match p s with
  | none => some (s, none)
  | some (s', a) => some (s', some a)

/-- `nom::sequence::preceded`: run `a`, discard it, run `b`. -/
def ppreceded {α β : Type} (a : P α) (b : P β) : P β :=
  pbind a (fun _ => b)

/-- `nom::sequence::terminated`: run `a`, then `b`, keep `a`. -/
def pterminated {α β : Type} (a : P α) (b : P β) : P α :=
  pbind a (fun x => pmap (fun _ => x) b)

/-- `nom::sequence::delimited`: run `a`, `b`, `c`, keep `b`. -/
def pdelimited {α β γ : Type} (a : P α) (b : P β) (c : P γ) : P β :=
  ppreceded a (pterminated b c)

/-- Longest prefix of characters satisfying a predicate, at least one
(the shape of `alphanumeric1` / `digit1`). -/
def ptakeWhile1 (f : Char → Bool) : P (List Char) := fun s =>
  let taken := s.takeWhile f
  if taken.isEmpty then none else some (s.drop taken.length, taken)

/-- `nom::character::complete::alphanumeric1` (ASCII letters and
digits). -/
def palphanumeric1 : P (List Char) := ptakeWhile1 Char.isAlphanum

/-- `nom::character::complete::multispace0`: any amount of spaces, tabs,
carriage returns and newlines; never fails. -/
def pmultispace0 : P Unit := fun s =>
  some (s.dropWhile (fun c => c = ' ' ∨ c = '\t' ∨ c = '\n' ∨ c = '\r'), ())

/-- Repetition body shared by `many1` / `separated_list1`: keep applying
`p` while it succeeds and consumes input; a success without consumption
aborts the whole parse (nom's infinite-loop guard). -/
def pmany0Aux {α : Type} (p : P α) : Nat → P (List α)
  | 0 => fun s => some (s, [])
  | fuel + 1 => fun s =>
    match p s with
    | none => some (s, [])
    | some (s', a) =>
      if s'.length < s.length then
        match pmany0Aux p fuel s' with
        | some (s'', as) => some (s'', a :: as)
        | none => none
      else none

/-- `nom::multi::many1`. -/
def pmany1 {α : Type} (p : P α) : P (List α) := fun s =>
  match p s with
  | none => none
  | some (s', a) =>
    if s'.length < s.length then
      match pmany0Aux p s'.length s' with
      | some (s'', as) => some (s'', a :: as)
      | none => none
    else none

/-- `nom::multi::separated_list1`. -/
def pseparatedList1 {α σ : Type} (sep : P σ) (p : P α) : P (List α) := fun s =>
  match p s with
  | none => none
  | some (s', a) =>
    match pmany0Aux (ppreceded sep p) s'.length s' with
    | some (s'', as) => some (s'', a :: as)
    | none => none

/-- `nom::bytes::complete::escaped`: blocks matched by the normal parser
interleaved with control-character + escapable-character pairs; returns
the consumed input. -/
def pescapedAux (normal : P (List Char)) (ctrl : Char) (escapable : List Char) :
    Nat → List Char → (List Char × List Char)
  | 0, s => (s, [])
  | fuel + 1, s =>
    match normal s with
    | some (s', taken) =>
      if s'.length < s.length then
        let (s'', rest) := pescapedAux normal ctrl escapable fuel s'
        (s'', taken ++ rest)
      else (s, [])
    | none =>
      match s with
      | c :: e :: s' =>
        if c = ctrl ∧ escapable.contains e then
          let (s'', rest) := pescapedAux normal ctrl escapable fuel s'
          (s'', c :: e :: rest)
        else (s, [])
      | _ => (s, [])

/-- `nom::bytes::complete::escaped` wrapper. -/
def pescaped (normal : P (List Char)) (ctrl : Char) (escapable : List Char) :
    P (List Char) := fun s =>
  some (pescapedAux normal ctrl escapable s.length s)

/-- Numeric value of a digit list. -/
def digitsVal (ds : List Char) : Nat :=
  ds.foldl (fun acc d => 10 * acc + (d.toNat - 48)) 0

/-- `nom::character::complete::digit1`. -/
def pdigits1 : P (List Char) := ptakeWhile1 Char.isDigit

/-- `nom::character::complete::u64`: unsigned decimal with overflow
check. -/
def pu64 : P Nat :=
  pbind pdigits1 (fun ds =>
    if digitsVal ds < 2 ^ 64 then ppure (digitsVal ds) else pfail)

/-- `nom::character::complete::u32`: unsigned decimal with overflow
check. -/
def pu32 : P Nat :=
  pbind pdigits1 (fun ds =>
    if digitsVal ds < 2 ^ 32 then ppure (digitsVal ds) else pfail)

/-- Optional sign of `nom`'s signed integer parsers. -/
def psign : P Int :=
  pbind (popt (porelse (pchar '-') (pchar '+'))) (fun c =>
    ppure (if c = some '-' then (-1 : Int) else 1))

/-- `nom::character::complete::i32`: signed decimal with `i32` range
check. -/
def pi32 : P Int :=
  pbind psign (fun sg => pbind pdigits1 (fun ds =>
    let v : Int := sg * digitsVal ds
    if -(2 ^ 31) ≤ v ∧ v < 2 ^ 31 then ppure v else pfail))

/-- `nom::character::complete::i64`: signed decimal with `i64` range
check. -/
def pi64 : P Int :=
  pbind psign (fun sg => pbind pdigits1 (fun ds =>
    let v : Int := sg * digitsVal ds
    if -(2 ^ 63) ≤ v ∧ v < 2 ^ 63 then ppure v else pfail))

/-- `nom::number::complete::double`: optional sign, then either digits
with an optional fraction or a leading-dot fraction, then an optional
exponent; the value is returned exactly as a rational. -/
def pdouble : P ℚ :=
  pbind psign (fun sg =>
    pbind
      (porelse
        (pbind pdigits1 (fun intds =>
          pbind (popt (ppreceded (pchar '.') (popt pdigits1))) (fun fr =>
            let frds := (fr.map (fun o => o.getD [])).getD []
            ppure ((digitsVal intds : ℚ) +
              (digitsVal frds : ℚ) / (10 : ℚ) ^ frds.length))))
        (ppreceded (pchar '.') (pbind pdigits1 (fun frds =>
          ppure ((digitsVal frds : ℚ) / (10 : ℚ) ^ frds.length)))))
      (fun mag =>
        pbind (popt (ppreceded (poneOf ['e', 'E'])
          (pbind psign (fun esg => pbind pdigits1 (fun eds =>
            ppure (esg * digitsVal eds)))))) (fun ex =>
          let e : Int := ex.getD 0
          ppure ((sg : ℚ) * mag * (10 : ℚ) ^ e))))

/-! ### The path grammar of `src/jsonpath/parser.rs` -/

/-- `raw_string`: `escaped(alphanumeric1, '\\', one_of("\"n\\"))`. -/
def jpRawString : P (List Char) :=
  pescaped palphanumeric1 (Char.ofNat 92) ['"', 'n', Char.ofNat 92]

/-- `string`: a raw string in single or double quotes. -/
def jpString : P (List Char) :=
  porelse
    (pdelimited (pchar (Char.ofNat 39)) jpRawString (pchar (Char.ofNat 39)))
    (pdelimited (pchar '"') jpRawString (pchar '"'))

/-- `bracket_wildcard`: `[*]` with inner whitespace. -/
def jpBracketWildcard : P Unit :=
  pconst () (pdelimited (pchar '[')
    (pdelimited pmultispace0 (pchar '*') pmultispace0) (pchar ']'))

/-- `colon_field`: `:` then an alphanumeric identifier. -/
def jpColonField : P (List Char) := ppreceded (pchar ':') palphanumeric1

/-- `dot_field`: `.` then an alphanumeric identifier. -/
def jpDotField : P (List Char) := ppreceded (pchar '.') palphanumeric1

/-- `descent_field`: `..` then an alphanumeric identifier. -/
def jpDescentField : P (List Char) := ppreceded (ptag (chars "..")) palphanumeric1

/-- `array_index`: `[ i32 ]`. -/
def jpArrayIndex : P Int :=
  pdelimited (pterminated (pchar '[') pmultispace0) pi32
    (ppreceded pmultispace0 (pchar ']'))

/-- `array_indices`: `[ i32 (, i32)+ ]` (via `separated_list1`). -/
def jpArrayIndices : P (List Int) :=
  pdelimited (pterminated (pchar '[') pmultispace0)
    (pseparatedList1 (pdelimited pmultispace0 (pchar ',') pmultispace0) pi32)
    (ppreceded pmultispace0 (pchar ']'))

/-- `object_field`: `[ string ]`. -/
def jpObjectField : P (List Char) :=
  pdelimited (pterminated (pchar '[') pmultispace0) jpString
    (ppreceded pmultispace0 (pchar ']'))

/-- `object_fields`: `[ string (, string)+ ]`. -/
def jpObjectFields : P (List (List Char)) :=
  pdelimited (pterminated (pchar '[') pmultispace0)
    (pseparatedList1 (pdelimited pmultispace0 (pchar ',') pmultispace0) jpString)
    (ppreceded pmultispace0 (pchar ']'))

/-- `array_slice`: `[ start? : end? (: step)? ]`. -/
def jpArraySlice : P JPath :=
  pmap (fun ((os, _, oe, ost) : Option Int × Char × Option Int × Option Nat) =>
      JPath.arraySlice os oe ost)
    (pdelimited (pchar '[')
      (pbind (pdelimited pmultispace0 (popt pi32) pmultispace0) (fun os =>
        pbind (pchar ':') (fun colon =>
          pbind (pdelimited pmultispace0 (popt pi32) pmultispace0) (fun oe =>
            pbind (popt (ppreceded (pchar ':')
                (pdelimited pmultispace0 pu32 pmultispace0))) (fun ost =>
              ppure (os, colon, oe, ost))))))
      (pchar ']'))

/-- `op`: the comparison / set operator alternatives, in the exact
source order — note that `tag("<")` is tried before `tag("<=")` and
`tag(">")` before `tag(">=")`. -/
def jpOp : P BinOp :=
  palt [
    pconst BinOp.eq (ptag (chars "==")),
    pconst BinOp.notEq (ptag (chars "!=")),
    pconst BinOp.lt (ptag (chars "<")),
    pconst BinOp.lte (ptag (chars "<=")),
    pconst BinOp.gt (ptag (chars ">")),
    pconst BinOp.gte (ptag (chars ">=")),
    pconst BinOp.rmatch (ptag (chars "=~")),
    pconst BinOp.inOp (ptagNoCase (chars "in")),
    pconst BinOp.nin (ptagNoCase (chars "nin")),
    pconst BinOp.subsetof (ptagNoCase (chars "subsetof")),
    pconst BinOp.anyof (ptagNoCase (chars "anyof")),
    pconst BinOp.noneof (ptagNoCase (chars "noneof")),
    pconst BinOp.size (ptagNoCase (chars "size")),
    pconst BinOp.empty (ptagNoCase (chars "empty"))]

/-- `path_value`: a literal filter operand. -/
def jpPathValue : P JPathValue :=
  palt [
    pconst JPathValue.null (ptag (chars "null")),
    pconst (JPathValue.boolean true) (ptag (chars "true")),
    pconst (JPathValue.boolean false) (ptag (chars "false")),
    pmap JPathValue.uint64 pu64,
    pmap JPathValue.int64 pi64,
    pmap JPathValue.float64 pdouble,
    pmap (fun s => JPathValue.string (s.map Char.toNat)) jpString]

mutual

/-- `path`: the step alternatives in the exact source order. -/
def jpPath : Nat → P JPath
  | 0 => pfail
  | fuel + 1 =>
    palt [
      pconst JPath.root (pchar '$'),
      pconst JPath.current (pchar '@'),
      pconst JPath.dotWildcard (ptag (chars ".*")),
      pconst JPath.descentWildcard (ptag (chars "..*")),
      pconst JPath.bracketWildcard jpBracketWildcard,
      pmap JPath.colonField jpColonField,
      pmap JPath.dotField jpDotField,
      pmap JPath.descentField jpDescentField,
      pmap JPath.arrayIndex jpArrayIndex,
      pmap JPath.arrayIndices jpArrayIndices,
      pmap JPath.objectField jpObjectField,
      pmap JPath.objectFields jpObjectFields,
      jpArraySlice,
      pmap JPath.filterExpr (jpFilterExpr fuel)]

/-- `filter_expr`: `[?( expr )]`. -/
def jpFilterExpr : Nat → P JExpr
  | 0 => pfail
  | fuel + 1 =>
    pdelimited (ptag (chars "[?("))
      (pdelimited pmultispace0 (jpExpr fuel) pmultispace0)
      (ptag (chars ")]"))

/-- `expr`: a binary operation over two sub-expressions, or a single
sub-expression. -/
def jpExpr : Nat → P JExpr
  | 0 => pfail
  | fuel + 1 =>
    porelse
      (pbind (pdelimited pmultispace0 (jpSubExpr fuel) pmultispace0) (fun l =>
        pbind jpOp (fun op =>
          pbind (pdelimited pmultispace0 (jpSubExpr fuel) pmultispace0) (fun r =>
            ppure (JExpr.binaryOp op l r)))))
      (jpSubExpr fuel)

/-- `sub_expr`: a path sequence or a literal value. -/
def jpSubExpr : Nat → P JExpr
  | 0 => pfail
  | fuel + 1 =>
    porelse (pmap JExpr.paths (pmany1 (jpPath fuel)))
      (pmap JExpr.value jpPathValue)

end

/-- `json_path`: whitespace-delimited `many1(path)`. -/
def jpJsonPath (fuel : Nat) : P (List JPath) :=
  pdelimited pmultispace0 (pmany1 (jpPath fuel)) pmultispace0

/-- Embedding of `parse_json_path` of `src/jsonpath/parser.rs`: run the
grammar, then demand that the input is exhausted
(`Error::InvalidJsonPath` on trailing input); a parser failure surfaces
as `Error::InvalidJsonb` — exactly the error the source maps `nom`
errors to. -/
def parseJsonPath (input : List Char) : Except JErr (List JPath) :=
  match jpJsonPath (input.length + 1) input with
  | some (rest, paths) =>
    if rest.isEmpty then .ok paths else .error .invalidJsonPath
  | none => .error .invalidJsonb

/-! ## The JSONPath evaluator of `src/jsonpath/selector.rs`

The selector walks encoded bytes through a queue of items, each either a
borrowed container slice (`Item::Container`) or a freshly assembled
scalar container (`Item::Scalar`).  Here an item carries the value tree
it denotes, with the same container/scalar distinction (`select_by_*`
wrap a non-container JEntry into a scalar item, and alias a nested
container); the byte plumbing (`decode_header` / `decode_jentries`) is
what the tree representation abstracts.  The `unreachable!()` panics of
the source are modelled as the error `JErr.panicUnreachable`. -/

/-- A selector pipeline item (`Item` of `selector.rs`). -/
inductive SItem where
  | container (v : Val)
  | scalar (v : Val)
deriving Repr

/-- The value an item denotes. -/
def itemVal : SItem → Val
  | .container v => v
  | .scalar v => v

/-- The extraction rule of `select_by_name` / `select_all_values` /
`select_by_indices`: a `CONTAINER` JEntry is aliased as a container
item, anything else is wrapped into a scalar item. -/
def mkItem (v : Val) : SItem :=
  match v with
  | .arr _ => .container v
  | .obj _ => .container v
  | s => .scalar s

/-- Byte image of a parsed (ASCII) path identifier, for comparison with
stored keys. -/
def keyOfName (s : List Char) : List Nat := s.map Char.toNat

/-- Embedding of `Selector::select_by_name`: nothing unless the current
item is a non-empty object; the first member whose key equals the name
(the `found` flag makes later matches dead) contributes one item. -/
def selectByName (current : Val) (name : List Char) : List SItem :=
  match current with
  | .obj es =>
    match es.find? (fun kv => kv.1 == keyOfName name) with
    | some kv => [mkItem kv.2]
    | none => []
  | _ => []

/-- Embedding of `Selector::select_all_object_values` (`.*`). -/
def selectAllObjectValues (current : Val) : List SItem :=
  match current with
  | .obj es => es.map (fun kv => mkItem kv.2)
  | _ => []

/-- Embedding of `Selector::select_all_values` (`[*]`): array elements,
or the current item passed through unchanged for non-arrays. -/
def selectAllValues (current : Val) : List SItem :=
  match current with
  | .arr xs => xs.map mkItem
  | w => [.container w]

/-- Embedding of `Selector::convert_index` for a plain (non-`last`)
index: in range exactly when `0 ≤ idx < length`. -/
def convertIndex (idx : Int) (length : Nat) : Option Nat :=
  if 0 ≤ idx ∧ idx < (length : Int) then some idx.toNat else none

/-- Embedding of `Selector::select_by_indices` over plain indices:
nothing unless the current item is a non-empty array; each in-range
index contributes the element at that position. -/
def selectByIndices (current : Val) (indices : List Int) : List SItem :=
  match current with
  | .arr xs =>
    if xs.isEmpty then []
    else
      (indices.filterMap (fun i => convertIndex i xs.length)).filterMap
        (fun i => (xs.get? i).map mkItem)
  | _ => []

/-- Embedding of `Selector::select_path`: the four supported step groups
dispatch to their handlers; every other step (`DescentField`,
`DescentWildcard`, `ArrayIndex`, `ObjectFields`, `ArraySlice`,
`Current`, …) falls into the source's `_ => unreachable!()` arm, which
panics. -/
def selectPathTree (current : Val) (p : JPath) : Except JErr (List SItem) :=
  match p with
  | .colonField n => .ok (selectByName current n)
  | .dotField n => .ok (selectByName current n)
  | .objectField n => .ok (selectByName current n)
  | .arrayIndices is => .ok (selectByIndices current is)
  | .dotWildcard => .ok (selectAllObjectValues current)
  | .bracketWildcard => .ok (selectAllValues current)
  | _ => .error .panicUnreachable

/-- Whether a step is the bracket wildcard (the only step that lets a
scalar item survive the queue round). -/
def isBracketWildcard : JPath → Bool
  | .bracketWildcard => true
  | _ => false

/-- One queue round of `Selector::select` for a non-root, non-filter
step: container items are expanded through `select_path`, scalar items
survive only under `[*]`. -/
def stepItems (p : JPath) : List SItem → Except JErr (List SItem)
  | [] => .ok []
  | it :: rest =>
    match it with
    | .container v => do
      let xs ← selectPathTree v p
      let ys ← stepItems p rest
      .ok (xs ++ ys)
    | .scalar _ => do
      let ys ← stepItems p rest
      .ok (if isBracketWildcard p then it :: ys else ys)

/-- Level of a filter literal under the scalar order. -/
def pathValueLevel : JPathValue → Nat
  | .null => 7
  | .string _ => 4
  | .uint64 _ => 3
  | .int64 _ => 3
  | .float64 _ => 3
  | .number _ => 3
  | .boolean true => 2
  | .boolean false => 1

/-- Numeric content of a filter literal, when it is a number. -/
def pathValueNum : JPathValue → Option JNumber
  | .uint64 u => some (.uint64 u)
  | .int64 i => some (.int64 i)
  | .float64 q => some (.float64 q)
  | .number n => some n
  | _ => none

/-- Modelled from the spec (`PathValue::partial_cmp` lives in the
missing `path.rs`; §4.7 compares filter operands "under the scalar order
of §4.6"): different levels order by level, strings by bytes, numbers
numerically, null/booleans equal to themselves. -/
def pathValuePartialCmp (a b : JPathValue) : Option Ordering :=
  if pathValueLevel a ≠ pathValueLevel b then
    some (natCompare (pathValueLevel a) (pathValueLevel b))
  else
    match a, b with
    | .string s, .string t => some (listCompare s t)
    | _, _ =>
      match pathValueNum a, pathValueNum b with
      | some m, some n => some (numCompare m n)
      | _, _ => some .eq

/-- Embedding of `Selector::compare_value`: an incomparable pair yields
`false`; the comparison operators test the ordering; any other operator
reaches the source's `unreachable!()`. -/
def filterCompareValue (op : BinOp) (a b : JPathValue) : Except JErr Bool :=
  match pathValuePartialCmp a b with
  | none => .ok false
  | some ord =>
    match op with
    | .eq => .ok (ord == .eq)
    | .notEq => .ok (ord != .eq)
    | .lt => .ok (ord == .lt)
    | .lte => .ok (ord == .eq || ord == .lt)
    | .gt => .ok (ord == .gt)
    | .gte => .ok (ord == .eq || ord == .gt)
    | _ => .error .panicUnreachable

/-- An evaluated filter operand (`ExprValue` of `selector.rs`): a single
literal or the value set collected from a path. -/
inductive FilterVal where
  | one (v : JPathValue)
  | many (vs : List JPathValue)

/-- Existential comparison of a value set against one value. -/
def anyCompareL (op : BinOp) : List JPathValue → JPathValue → Except JErr Bool
  | [], _ => .ok false
  | v :: rest, r => do
    if (← filterCompareValue op v r) then .ok true else anyCompareL op rest r

/-- Existential comparison of one value against a value set. -/
def anyCompareR (op : BinOp) (l : JPathValue) : List JPathValue → Except JErr Bool
  | [] => .ok false
  | v :: rest => do
    if (← filterCompareValue op l v) then .ok true else anyCompareR op l rest

/-- Existential comparison of two value sets (any pair). -/
def anyCompareLR (op : BinOp) : List JPathValue → List JPathValue → Except JErr Bool
  | [], _ => .ok false
  | l :: rest, rs => do
    if (← anyCompareR op l rs) then .ok true else anyCompareLR op rest rs

/-- Embedding of `Selector::compare`: single/set operands compared with
existential semantics. -/
def filterCompare (op : BinOp) (l r : FilterVal) : Except JErr Bool :=
  match l, r with
  | .one a, .one b => filterCompareValue op a b
  | .many as, .one b => anyCompareL op as b
  | .one a, .many bs => anyCompareR op a bs
  | .many as, .many bs => anyCompareLR op as bs

/-- The scalar filter contribution of an item: only scalar-container
items produce a `PathValue` (array and object results are dropped by
`filter_expr_val`). -/
def scalarPathValue (it : SItem) : Option JPathValue :=
  match itemVal it with
  | .arr _ => none
  | .obj _ => none
  | .null => some .null
  | .bool b => some (.boolean b)
  | .num n => some (.number n)
  | .str s => some (.string s)

/-- The step loop of `Selector::filter_expr_val` over the path tail:
`$`, `@` and nested filters are rejected with `InvalidJsonPath`; other
steps run the shared queue round. -/
def filterStepLoop : List JPath → List SItem → Except JErr (List SItem)
  | [], items => .ok items
  | p :: rest, items =>
    match p with
    | .root => .error .invalidJsonPath
    | .current => .error .invalidJsonPath
    | .filterExpr _ => .error .invalidJsonPath
    | _ => do filterStepLoop rest (← stepItems p items)

/-- Embedding of `Selector::filter_expr_val`: a literal evaluates to
itself; a path must start at `$` (the root value) or `@` (the current
item) and collects the scalar values its steps select; a nested binary
operation is `InvalidJsonPath`. -/
def filterExprVal (root current : Val) : JExpr → Except JErr FilterVal
  | .value v => .ok (.one v)
  | .paths ps =>
    match ps with
    | .root :: rest => do
      let items ← filterStepLoop rest [.container root]
      .ok (.many (items.filterMap scalarPathValue))
    | .current :: rest => do
      let items ← filterStepLoop rest [.container current]
      .ok (.many (items.filterMap scalarPathValue))
    | _ => .error .invalidJsonPath
  | .binaryOp _ _ _ => .error .invalidJsonPath

/-- Embedding of `Selector::filter_expr`: `&&` / `||` evaluate both
sides and combine; a comparison evaluates both operand value sets and
compares; a bare path or literal is `InvalidJsonPath`. -/
def filterExprTree (root current : Val) : JExpr → Except JErr Bool
  | .binaryOp .opOr l r => do
    let lhs ← filterExprTree root current l
    let rhs ← filterExprTree root current r
    .ok (lhs || rhs)
  | .binaryOp .opAnd l r => do
    let lhs ← filterExprTree root current l
    let rhs ← filterExprTree root current r
    .ok (lhs && rhs)
  | .binaryOp op l r => do
    let lv ← filterExprVal root current l
    let rv ← filterExprVal root current r
    filterCompare op lv rv
  | _ => .error .invalidJsonPath

/-- The filter round of `Selector::select`: keep, in order, the items
whose filter predicate holds. -/
def filterItems (root : Val) (e : JExpr) : List SItem → Except JErr (List SItem)
  | [] => .ok []
  | it :: rest => do
    let keep ← filterExprTree root (itemVal it) e
    let rest' ← filterItems root e rest
    .ok (if keep then it :: rest' else rest')

/-- The step dispatch loop of `Selector::select`: `$` resets nothing
(the root is already the queue content), a filter step filters, every
other step runs the queue round. -/
def selectSteps (root : Val) : List JPath → List SItem → Except JErr (List SItem)
  | [], items => .ok items
  | p :: rest, items =>
    match p with
    | .root => selectSteps root rest items
    | .filterExpr e => do selectSteps root rest (← filterItems root e items)
    | _ => do selectSteps root rest (← stepItems p items)

/-- Embedding of `Selector::select` of `src/jsonpath/selector.rs`: start
from the root value as a single container item, run every step, return
the denoted values in queue order. -/
def selectTree (paths : List JPath) (value : Val) : Except JErr (List Val) :=
  (selectSteps value paths [.container value]).map (List.map itemVal)

/-! ## Byte-level primitives (`src/functions.rs` and `src/constants.rs`) -/

/-- Embedding of `read_u32`: the big-endian 32-bit word at `idx`, or
`InvalidEOF` when fewer than four bytes remain. -/
def readU32 (buf : List Nat) (idx : Nat) : Except JErr Nat :=
  match buf.drop idx with
  | b0 :: b1 :: b2 :: b3 :: _ => .ok (((b0 * 256 + b1) * 256 + b2) * 256 + b3)
  | _ => .error .invalidEof

/-- Embedding of `is_jsonb`: the first byte is one of the container
prefixes `0x80` / `0x40` / `0x20` (`ARRAY_PREFIX`, `OBJECT_PREFIX`,
`SCALAR_PREFIX` of `src/constants.rs`). -/
def isJsonb (v : List Nat) : Bool :=
  match v with
  | b :: _ => b == 0x80 || b == 0x40 || b == 0x20
  | [] => false

/-- `CONTAINER_HEADER_TYPE_MASK`-extracted tag of a header word. -/
def headerType (w : Nat) : Nat := w &&& 0xE0000000

/-- `CONTAINER_HEADER_LEN_MASK`-extracted length of a header word. -/
def headerLen (w : Nat) : Nat := w &&& 0x1FFFFFFF

/-- `JENTRY_TYPE_MASK`-extracted type code of a JEntry word. -/
def jentryType (w : Nat) : Nat := w &&& 0x70000000

/-- `JENTRY_OFF_LEN_MASK`-extracted length of a JEntry word. -/
def jentryLen (w : Nat) : Nat := w &&& 0x0FFFFFFF

/-- Big-endian value of a byte list. -/
def beNat (bs : List Nat) : Nat := bs.foldl (fun acc b => acc * 256 + b) 0

/-- The exact rational value of a finite IEEE-754 double given by its
bit pattern (sign, 11-bit exponent, 52-bit mantissa). -/
def decodeF64 (bits : Nat) : ℚ :=
  let s : Nat := bits / 2 ^ 63
  let e : Nat := bits / 2 ^ 52 % 2 ^ 11
  let m : Nat := bits % 2 ^ 52
  let mag : ℚ :=
    if e = 0 then (m : ℚ) * (2 : ℚ) ^ (-(1074 : Int))
    else ((2 ^ 52 + m : Nat) : ℚ) * (2 : ℚ) ^ ((e : Int) - 1075)
  if s = 1 then -mag else mag

/-- Modelled from the spec (§3, the number codec of the missing
`number.rs`): decode a number payload — a kind byte `ZERO` / `NAN` /
`INF` / `NEG_INF` / `INT` / `UINT` / `FLOAT` followed by an empty or
8-byte big-endian body.  A `FLOAT` body with a non-finite exponent and
any other shape fail with `InvalidNumber` (the codec only emits finite
`FLOAT` payloads, using the dedicated kinds otherwise). -/
def decodeNumber (bs : List Nat) : Except JErr JNumber :=
  match bs with
  | [0x00] => .ok (.uint64 0)
  | [0x10] => .ok .nan
  | [0x20] => .ok .inf
  | [0x30] => .ok .negInf
  | 0x40 :: rest =>
    if rest.length = 8 then
      .ok (.int64 (if beNat rest < 2 ^ 63 then (beNat rest : Int)
                   else (beNat rest : Int) - 2 ^ 64))
    else .error .invalidNumber
  | 0x50 :: rest =>
    if rest.length = 8 then .ok (.uint64 (beNat rest)) else .error .invalidNumber
  | 0x60 :: rest =>
    if rest.length = 8 then
      if beNat rest / 2 ^ 52 % 2 ^ 11 = 2047 then .error .invalidNumber
      else .ok (.float64 (decodeF64 (beNat rest)))
    else .error .invalidNumber
  | _ => .error .invalidNumber

/-- Modelled from the spec: encode a number payload.  Zero gets the
`ZERO` kind; integers get exact 8-byte big-endian bodies (two's
complement for `INT`); a float body stands in with the monotone 8-byte
image of `sortableNumBytes` (the real codec writes the IEEE bit pattern;
no claim settled here round-trips a float payload). -/
def encodeNumber : JNumber → List Nat
  | .int64 i =>
    if i = 0 then [0x00]
    else 0x40 :: natToBytesBE 8 (if 0 ≤ i then i.toNat else (2 ^ 64 + i).toNat)
  | .uint64 u => if u = 0 then [0x00] else 0x50 :: natToBytesBE 8 u
  | .float64 q =>
    if q = 0 then [0x00]
    else 0x60 :: natToBytesBE 8 (max 1 (min (2 ^ 64 - 3) (⌊q * 2 ^ 20⌋ + 2 ^ 63))).toNat
  | .nan => [0x10]
  | .inf => [0x20]
  | .negInf => [0x30]

/-- JEntry word and payload bytes of a non-container scalar (§3): the
type tag of `src/constants.rs` or-ed with the payload length. -/
def scalarJP : Val → Nat × List Nat
  | .null => (0x00000000, [])
  | .bool false => (0x30000000, [])
  | .bool true => (0x40000000, [])
  | .num n => (0x20000000 + (encodeNumber n).length, encodeNumber n)
  | .str s => (0x10000000 + s.length, s)
  | .arr _ => (0, [])
  | .obj _ => (0, [])

/-- The array container layout of §3 over precomputed element
JEntry/payload pairs: header, `n` JEntries, `n` payloads. -/
def arrayLayout (n : Nat) (elems : List (Nat × List Nat)) : List Nat :=
  natToBytesBE 4 (0x80000000 + n) ++
    elems.flatMap (fun jp => natToBytesBE 4 jp.1) ++ elems.flatMap (·.2)

/-- The object container layout of §3 over the keys and precomputed
value JEntry/payload pairs: header, `n` key JEntries (STRING tags),
`n` value JEntries, key payloads, value payloads. -/
def objectLayout (n : Nat) (keys : List (List Nat))
    (elems : List (Nat × List Nat)) : List Nat :=
  natToBytesBE 4 (0x40000000 + n) ++
    keys.flatMap (fun k => natToBytesBE 4 (0x10000000 + k.length)) ++
    elems.flatMap (fun jp => natToBytesBE 4 jp.1) ++
    keys.flatMap id ++ elems.flatMap (·.2)

mutual

/-- JEntry word and payload for one container slot: nested containers
get a `CONTAINER` JEntry over their full encoding
(modelled from the spec; §3, the serializer `ser.rs` is not part of the
excerpt). -/
def encodeElem (v : Val) : Nat × List Nat :=
  match v with
  | .arr xs =>
    let b := arrayLayout xs.length (encodeElems xs)
    (0x50000000 + b.length, b)
  | .obj es =>
    let b := objectLayout es.length (es.map (·.1)) (encodeObjElems es)
    (0x50000000 + b.length, b)
  | s => scalarJP s
  termination_by structural v

/-- JEntry/payload pairs of a value list. -/
def encodeElems (xs : List Val) : List (Nat × List Nat) :=
  match xs with
  | [] => []
  | v :: rest => encodeElem v :: encodeElems rest
  termination_by structural xs

/-- JEntry/payload pairs of the values of a member list. -/
def encodeObjElems (es : List (List Nat × Val)) : List (Nat × List Nat) :=
  match es with
  | [] => []
  | (_, v) :: rest => encodeElem v :: encodeObjElems rest
  termination_by structural es

end

/-- Array container bytes. -/
def encodeArray (xs : List Val) : List Nat :=
  arrayLayout xs.length (encodeElems xs)

/-- Object container bytes. -/
def encodeObject (es : List (List Nat × Val)) : List Nat :=
  objectLayout es.length (es.map (·.1)) (encodeObjElems es)

/-- Modelled from the spec (§3, the serializer `ser.rs` is not part of
the excerpt): the JSONB byte encoding of a value — a scalar container
(`0x20...` header, JEntry, payload) for scalars, the array and object
container layouts for containers. -/
def encodeVal : Val → List Nat
  | .arr xs => encodeArray xs
  | .obj es => encodeObject es
  | s => natToBytesBE 4 0x20000000 ++ natToBytesBE 4 (scalarJP s).1 ++ (scalarJP s).2

/-- The compare level of a JEntry type code (`jentry_compare_level` of
`src/functions.rs`; an unknown code gets `INVALID_LEVEL = 0`). -/
def jentryLevel (ty : Nat) : Nat :=
  if ty = 0x00000000 then 7
  else if ty = 0x50000000 then 5
  else if ty = 0x10000000 then 4
  else if ty = 0x20000000 then 3
  else if ty = 0x40000000 then 2
  else if ty = 0x30000000 then 1
  else 0

/-- Read `count` big-endian words starting at `offset`, advancing by 4
(the JEntry-table read loops of `compare_object` /
`get_jentry_by_name`). -/
def readNWords (body : List Nat) (offset : Nat) : Nat → Except JErr (List Nat)
  | 0 => .ok []
  | n + 1 => do
    let w ← readU32 body offset
    let rest ← readNWords body (offset + 4) n
    .ok (w :: rest)

mutual

/-- Embedding of `compare_scalar` of `src/functions.rs` on JEntry words
and payload suffixes: levels first, then the same-type cases (container
recursion, string bytes, decoded numbers, equal booleans/nulls); a
mismatching pair at equal level is `InvalidJsonbJEntry`.  `fuel` is a
recursion bound, decremented at every nested call and chosen amply by
the entry point. -/
def compareScalarBytes (fuel : Nat) (lj : Nat) (lp : List Nat) (rj : Nat)
    (rp : List Nat) : Except JErr Ordering :=
  match fuel with
  | 0 => .error .recursionLimit
  | f + 1 =>
    if jentryLevel (jentryType lj) ≠ jentryLevel (jentryType rj) then
      .ok (natCompare (jentryLevel (jentryType lj)) (jentryLevel (jentryType rj)))
    else if jentryType lj = 0x00000000 ∧ jentryType rj = 0x00000000 then .ok .eq
    else if jentryType lj = 0x50000000 ∧ jentryType rj = 0x50000000 then
      compareContainerBytes f lp rp
    else if jentryType lj = 0x10000000 ∧ jentryType rj = 0x10000000 then
      .ok (listCompare (lp.take (jentryLen lj)) (rp.take (jentryLen rj)))
    else if jentryType lj = 0x20000000 ∧ jentryType rj = 0x20000000 then do
      let lm ← decodeNumber (lp.take (jentryLen lj))
      let rm ← decodeNumber (rp.take (jentryLen rj))
      .ok (numCompare lm rm)
    else if jentryType lj = 0x40000000 ∧ jentryType rj = 0x40000000 then .ok .eq
    else if jentryType lj = 0x30000000 ∧ jentryType rj = 0x30000000 then .ok .eq
    else .error .invalidJsonbJEntry
  termination_by structural fuel

/-- Embedding of `compare_container`: dispatch on the two nested
headers. -/
def compareContainerBytes (fuel : Nat) (left right : List Nat) :
    Except JErr Ordering :=
  match fuel with
  | 0 => .error .recursionLimit
  | f + 1 => do
    let lh ← readU32 left 0
    let rh ← readU32 right 0
    if headerType lh = 0x80000000 ∧ headerType rh = 0x80000000 then
      compareArrayBytes f lh (left.drop 4) rh (right.drop 4)
    else if headerType lh = 0x40000000 ∧ headerType rh = 0x40000000 then
      compareObjectBytes f lh (left.drop 4) rh (right.drop 4)
    else if headerType lh = 0x80000000 ∧ headerType rh = 0x40000000 then .ok .gt
    else if headerType lh = 0x40000000 ∧ headerType rh = 0x80000000 then .ok .lt
    else .error .invalidJsonbHeader
  termination_by structural fuel

/-- Embedding of `compare_array` (the body slices start after the
header, exactly as the source passes the `[4..]` suffixes). -/
def compareArrayBytes (fuel : Nat) (lh : Nat) (lbody : List Nat) (rh : Nat)
    (rbody : List Nat) : Except JErr Ordering :=
  match fuel with
  | 0 => .error .recursionLimit
  | f + 1 =>
    compareArrayLoop f lbody rbody (headerLen lh) (headerLen rh)
      (min (headerLen lh) (headerLen rh)) 0 (4 * headerLen lh) (4 * headerLen rh)
  termination_by structural fuel

/-- The element loop of `compare_array`: a shared JEntry offset and two
value offsets advance over the common prefix; the first inequality
returns early; an exhausted prefix compares the lengths. -/
def compareArrayLoop (fuel : Nat) (lbody rbody : List Nat) (llen rlen n jo lvo
    rvo : Nat) : Except JErr Ordering :=
  match fuel with
  | 0 => .error .recursionLimit
  | f + 1 =>
    match n with
    | 0 => .ok (natCompare llen rlen)
    | n' + 1 => do
      let le ← readU32 lbody jo
      let re ← readU32 rbody jo
      let ord ← compareScalarBytes f le (lbody.drop lvo) re (rbody.drop rvo)
      if ord ≠ .eq then .ok ord
      else (compareArrayLoop f lbody rbody llen rlen n' (jo + 4)
        (lvo + jentryLen le) (rvo + jentryLen re))
  termination_by structural fuel

/-- Embedding of `compare_object`: read both key-JEntry tables first to
locate the value regions, then run the member loop over the common
prefix of stored order. -/
def compareObjectBytes (fuel : Nat) (lh : Nat) (lbody : List Nat) (rh : Nat)
    (rbody : List Nat) : Except JErr Ordering :=
  match fuel with
  | 0 => .error .recursionLimit
  | f + 1 => do
    let lkjs ← readNWords lbody 0 (headerLen lh)
    let rkjs ← readNWords rbody 0 (headerLen rh)
    compareObjectLoop f lbody rbody (headerLen lh) (headerLen rh)
      (min (headerLen lh) (headerLen rh)) lkjs rkjs
      (4 * headerLen lh) (4 * headerLen rh) (8 * headerLen lh) (8 * headerLen rh)
      (8 * headerLen lh + (lkjs.map jentryLen).sum)
      (8 * headerLen rh + (rkjs.map jentryLen).sum)
  termination_by structural fuel

/-- The member loop of `compare_object`: a pair compares first by key
then by value, each with early exit; an exhausted prefix compares the
member counts. -/
def compareObjectLoop (fuel : Nat) (lbody rbody : List Nat) (llen rlen n : Nat)
    (lkjs rkjs : List Nat) (ljo rjo lko rko lvo rvo : Nat) :
    Except JErr Ordering :=
  match fuel with
  | 0 => .error .recursionLimit
  | f + 1 =>
    match n, lkjs, rkjs with
    | 0, _, _ => .ok (natCompare llen rlen)
    | _ + 1, [], _ => .ok (natCompare llen rlen)
    | _ + 1, _, [] => .ok (natCompare llen rlen)
    | n' + 1, lkj :: lkjs', rkj :: rkjs' => do
      let keyOrder ← compareScalarBytes f lkj (lbody.drop lko) rkj (rbody.drop rko)
      if keyOrder ≠ .eq then .ok keyOrder
      else do
        let le ← readU32 lbody ljo
        let re ← readU32 rbody rjo
        let valOrder ← compareScalarBytes f le (lbody.drop lvo) re (rbody.drop rvo)
        if valOrder ≠ .eq then .ok valOrder
        else (compareObjectLoop f lbody rbody llen rlen n' lkjs' rkjs'
          (ljo + 4) (rjo + 4) (lko + jentryLen lkj) (rko + jentryLen rkj)
          (lvo + jentryLen le) (rvo + jentryLen re))
  termination_by structural fuel

end

/-! ## The text-JSON fallback parser, modelled from the spec

§6: "every read/query entry point accepts either JSONB bytes or raw JSON
text; when text, it is parsed with a standard JSON grammar … the
fallback MUST accept any JSON accepted by a strict parser and MUST
reject invalid JSON with `InvalidJson`."  The parser `parser.rs` is not
part of the excerpt, so it is modelled here: a strict recursive-descent
JSON parser over raw bytes producing the `Value` tree (objects become a
`BTreeMap`, i.e. sorted unique keys with the last duplicate winning —
`buildObject`). -/

/-- JSON insignificant whitespace. -/
def skipWs (s : List Nat) : List Nat :=
  s.dropWhile (fun b => b == 0x20 || b == 0x09 || b == 0x0A || b == 0x0D)

/-- Value of one hexadecimal digit byte. -/
def hexVal (b : Nat) : Option Nat :=
  if 48 ≤ b ∧ b ≤ 57 then some (b - 48)
  else if 97 ≤ b ∧ b ≤ 102 then some (b - 87)
  else if 65 ≤ b ∧ b ≤ 70 then some (b - 55)
  else none

/-- UTF-8 bytes of a code point below `0x10000` (a single `\uXXXX`
escape; surrogate pairing is not modelled — no claim exercises it). -/
def utf8Encode (cp : Nat) : List Nat :=
  if cp < 0x80 then [cp]
  else if cp < 0x800 then [0xC0 + cp / 64, 0x80 + cp % 64]
  else [0xE0 + cp / 4096, 0x80 + cp / 64 % 64, 0x80 + cp % 64]

/-- JSON string body after the opening quote: plain bytes, the short
escapes, and `\uXXXX`; unescaped control bytes are rejected. -/
def parseJsonString : Nat → List Nat → Except JErr (List Nat × List Nat)
  | 0, _ => .error .invalidJson
  | fuel + 1, s =>
    match s with
    | [] => .error .invalidJson
    | 0x22 :: rest => .ok ([], rest)
    | 0x5C :: e :: rest =>
      if e = 0x22 ∨ e = 0x5C ∨ e = 0x2F then do
        let (c, r) ← parseJsonString fuel rest
        .ok (e :: c, r)
      else if e = 98 then do
        let (c, r) ← parseJsonString fuel rest
        .ok (8 :: c, r)
      else if e = 102 then do
        let (c, r) ← parseJsonString fuel rest
        .ok (12 :: c, r)
      else if e = 110 then do
        let (c, r) ← parseJsonString fuel rest
        .ok (10 :: c, r)
      else if e = 114 then do
        let (c, r) ← parseJsonString fuel rest
        .ok (13 :: c, r)
      else if e = 116 then do
        let (c, r) ← parseJsonString fuel rest
        .ok (9 :: c, r)
      else if e = 117 then
        match rest with
        | h1 :: h2 :: h3 :: h4 :: rest' =>
          match hexVal h1, hexVal h2, hexVal h3, hexVal h4 with
          | some d1, some d2, some d3, some d4 => do
            let (c, r) ← parseJsonString fuel rest'
            .ok (utf8Encode (((d1 * 16 + d2) * 16 + d3) * 16 + d4) ++ c, r)
          | _, _, _, _ => .error .invalidJson
        | _ => .error .invalidJson
      else .error .invalidJson
    | b :: rest =>
      if b < 0x20 ∨ b = 0x5C then .error .invalidJson
      else do
        let (c, r) ← parseJsonString fuel rest
        .ok (b :: c, r)

/-- Decimal digit byte. -/
def isDigitByte (b : Nat) : Bool := 48 ≤ b ∧ b ≤ 57

/-- Longest digit prefix and the rest. -/
def spanDigits (s : List Nat) : List Nat × List Nat :=
  (s.takeWhile isDigitByte, s.dropWhile isDigitByte)

/-- Numeric value of a digit byte list. -/
def digitsByteVal (ds : List Nat) : Nat :=
  ds.foldl (fun acc b => 10 * acc + (b - 48)) 0

/-- A strict JSON number: optional minus, integer part without leading
zeros, optional fraction and exponent.  Pure integers become
`Int64`/`UInt64` when they fit; anything else becomes the exact rational
(`Float64`). -/
def parseJsonNumber (s : List Nat) : Except JErr (JNumber × List Nat) :=
  let (neg, s1) : Bool × List Nat :=
    match s with
    | 45 :: rest => (true, rest)
    | _ => (false, s)
  let (ids, s2) := spanDigits s1
  if ids.isEmpty then .error .invalidJson
  else if ids.length > 1 ∧ ids.headD 0 = 48 then .error .invalidJson
  else
    let (frds, s3) : List Nat × List Nat :=
      match s2 with
      | 46 :: rest => spanDigits rest
      | _ => ([], s2)
    if (s2.headD 0 = 46) ∧ frds.isEmpty then .error .invalidJson
    else
      let hasFrac : Bool := s2.headD 0 = 46
      match s3 with
      | 101 :: rest | 69 :: rest =>
        let (esg, r1) : Int × List Nat :=
          match rest with
          | 45 :: r => (-1, r)
          | 43 :: r => (1, r)
          | _ => (1, rest)
        let (eds, r2) := spanDigits r1
        if eds.isEmpty then .error .invalidJson
        else
          let q : ℚ :=
            (if neg then -1 else 1) *
              ((digitsByteVal ids : ℚ) +
                (digitsByteVal frds : ℚ) / (10 : ℚ) ^ frds.length) *
              (10 : ℚ) ^ (esg * digitsByteVal eds)
          .ok (.float64 q, r2)
      | _ =>
        if hasFrac then
          let q : ℚ :=
            (if neg then -1 else 1) *
              ((digitsByteVal ids : ℚ) +
                (digitsByteVal frds : ℚ) / (10 : ℚ) ^ frds.length)
          .ok (.float64 q, s3)
        else if neg then
          if digitsByteVal ids ≤ 2 ^ 63 then .ok (.int64 (-(digitsByteVal ids : Int)), s3)
          else .ok (.float64 (-(digitsByteVal ids : ℚ)), s3)
        else if digitsByteVal ids < 2 ^ 64 then .ok (.uint64 (digitsByteVal ids), s3)
        else .ok (.float64 (digitsByteVal ids : ℚ), s3)

mutual

/-- One JSON value at the head of the (whitespace-skipped) input. -/
def parseJsonValueB : Nat → List Nat → Except JErr (Val × List Nat)
  | 0, _ => .error .invalidJson
  | fuel + 1, s =>
    match skipWs s with
    | [] => .error .invalidJson
    | b :: rest =>
      if b = 110 then
        if rest.take 3 = [117, 108, 108] then .ok (.null, rest.drop 3)
        else .error .invalidJson
      else if b = 116 then
        if rest.take 3 = [114, 117, 101] then .ok (.bool true, rest.drop 3)
        else .error .invalidJson
      else if b = 102 then
        if rest.take 4 = [97, 108, 115, 101] then .ok (.bool false, rest.drop 4)
        else .error .invalidJson
      else if b = 0x22 then do
        let (c, r) ← parseJsonString (rest.length + 1) rest
        .ok (.str c, r)
      else if b = 0x5B then do
        let (xs, r) ← parseJsonArrayItems fuel rest
        .ok (.arr xs, r)
      else if b = 0x7B then do
        let (es, r) ← parseJsonObjectItems fuel rest
        .ok (.obj (buildObject es), r)
      else if b = 45 ∨ isDigitByte b then do
        let (n, r) ← parseJsonNumber (b :: rest)
        .ok (.num n, r)
      else .error .invalidJson

/-- Array items after `[`: empty, or comma-separated values up to
`]`. -/
def parseJsonArrayItems : Nat → List Nat → Except JErr (List Val × List Nat)
  | 0, _ => .error .invalidJson
  | fuel + 1, s =>
    match skipWs s with
    | 0x5D :: rest => .ok ([], rest)
    | s1 => do
      let (v, r) ← parseJsonValueB fuel s1
      match skipWs r with
      | 0x2C :: r2 => do
        let (vs, r3) ← parseJsonArrayItems' fuel r2
        .ok (v :: vs, r3)
      | 0x5D :: r2 => .ok ([v], r2)
      | _ => .error .invalidJson

/-- Array items after a comma (a trailing comma is invalid). -/
def parseJsonArrayItems' : Nat → List Nat → Except JErr (List Val × List Nat)
  | 0, _ => .error .invalidJson
  | fuel + 1, s => do
    let (v, r) ← parseJsonValueB fuel s
    match skipWs r with
    | 0x2C :: r2 => do
      let (vs, r3) ← parseJsonArrayItems' fuel r2
      .ok (v :: vs, r3)
    | 0x5D :: r2 => .ok ([v], r2)
    | _ => .error .invalidJson

/-- Object members after the opening brace: empty, or comma-separated
`"key" : value` pairs up to the closing brace, in text order (the
caller's `buildObject` applies the `BTreeMap` semantics). -/
def parseJsonObjectItems : Nat → List Nat →
    Except JErr (List (List Nat × Val) × List Nat)
  | 0, _ => .error .invalidJson
  | fuel + 1, s =>
    match skipWs s with
    | 0x7D :: rest => .ok ([], rest)
    | s1 => parseJsonObjectItems' fuel s1

/-- One `"key" : value` member and the following members. -/
def parseJsonObjectItems' : Nat → List Nat →
    Except JErr (List (List Nat × Val) × List Nat)
  | 0, _ => .error .invalidJson
  | fuel + 1, s =>
    match skipWs s with
    | 0x22 :: rest => do
      let (k, r) ← parseJsonString (rest.length + 1) rest
      match skipWs r with
      | 0x3A :: r2 => do
        let (v, r3) ← parseJsonValueB fuel r2
        match skipWs r3 with
        | 0x2C :: r4 => do
          let (es, r5) ← parseJsonObjectItems' fuel r4
          .ok ((k, v) :: es, r5)
        | 0x7D :: r4 => .ok ([(k, v)], r4)
        | _ => .error .invalidJson
      | _ => .error .invalidJson
    | _ => .error .invalidJson

end

/-- Modelled from the spec (§6; `parse_value` of the missing
`parser.rs`): strict parse of a whole JSON text, rejecting trailing
input. -/
def parseValue (s : List Nat) : Except JErr Val := do
  let (v, rest) ← parseJsonValueB (s.length + 1) s
  if (skipWs rest).isEmpty then .ok v else .error .invalidJson

/-- Embedding of the free function `compare` of `src/functions.rs`
(its dispatch): when neither side is recognized as JSONB both are parsed
as text — two successes re-enter on the encodings, exactly one success
orders the parsed side greater, two failures fall back to plain byte
comparison of the slices; when exactly one side is not JSONB it is
parsed and re-entered on success, and ordered below (left) or above
(right) on failure; two JSONB sides compare structurally by header
tags.  (The source's `is_jsonb` if-chain is written here as the match on
the two recognition flags, case for case.) -/
def compareBytesTop : Nat → List Nat → List Nat → Except JErr Ordering
  | 0, _, _ => .error .recursionLimit
  | fuel + 1, left, right =>
    match isJsonb left, isJsonb right with
    | false, false =>
      (match parseValue left, parseValue right with
      | .ok lval, .ok rval => compareBytesTop fuel (encodeVal lval) (encodeVal rval)
      | .ok _, .error _ => .ok .gt
      | .error _, .ok _ => .ok .lt
      | .error _, .error _ => .ok (listCompare left right))
    | false, true =>
      (match parseValue left with
      | .ok lval => compareBytesTop fuel (encodeVal lval) right
      | .error _ => .ok .lt)
    | true, false =>
      (match parseValue right with
      | .ok rval => compareBytesTop fuel left (encodeVal rval)
      | .error _ => .ok .gt)
    | true, true => do
      let lh ← readU32 left 0
      let rh ← readU32 right 0
      if headerType lh = 0x20000000 ∧ headerType rh = 0x20000000 then do
        let le ← readU32 left 4
        let re ← readU32 right 4
        compareScalarBytes fuel le (left.drop 8) re (right.drop 8)
      else if headerType lh = 0x80000000 ∧ headerType rh = 0x80000000 then
        compareArrayBytes fuel lh (left.drop 4) rh (right.drop 4)
      else if headerType lh = 0x40000000 ∧ headerType rh = 0x40000000 then
        compareObjectBytes fuel lh (left.drop 4) rh (right.drop 4)
      else if headerType lh = 0x20000000 ∧
          (headerType rh = 0x80000000 ∨ headerType rh = 0x40000000) then do
        let le ← readU32 left 4
        .ok (if jentryType le = 0x00000000 then .gt else .lt)
      else if (headerType lh = 0x80000000 ∨ headerType lh = 0x40000000) ∧
          headerType rh = 0x20000000 then do
        let re ← readU32 right 4
        .ok (if jentryType re = 0x00000000 then .lt else .gt)
      else if headerType lh = 0x80000000 ∧ headerType rh = 0x40000000 then
        .ok .gt
      else if headerType lh = 0x40000000 ∧ headerType rh = 0x80000000 then
        .ok .lt
      else .error .invalidJsonbHeader

/-- The free `compare` entry point, with ample fuel for the (at most
two) text re-entries and the container nesting. -/
def compareJsonb (l r : List Nat) : Except JErr Ordering :=
  compareBytesTop ((l.length + r.length) * 8 + 64) l r

/-! ## `RawJsonb::to_string` (`src/functions.rs`) at byte level -/

/-- Whether a byte is a UTF-8 continuation byte. -/
def isContByte (b : Nat) : Bool := 0x80 ≤ b ∧ b ≤ 0xBF

/-- Rust's `String::from_utf8_lossy`: valid UTF-8 sequences are copied,
each maximal invalid prefix is replaced by the replacement character
`U+FFFD` (bytes `EF BF BD`). -/
def utf8Lossy : Nat → List Nat → List Nat
  | 0, _ => []
  | _ + 1, [] => []
  | fuel + 1, b :: rest =>
    if b < 0x80 then b :: utf8Lossy fuel rest
    else if 0xC2 ≤ b ∧ b ≤ 0xDF then
      match rest with
      | c :: rest' =>
        if isContByte c then b :: c :: utf8Lossy fuel rest'
        else 0xEF :: 0xBF :: 0xBD :: utf8Lossy fuel rest
      | [] => [0xEF, 0xBF, 0xBD]
    else if 0xE0 ≤ b ∧ b ≤ 0xEF then
      let lo : Nat := if b = 0xE0 then 0xA0 else 0x80
      let hi : Nat := if b = 0xED then 0x9F else 0xBF
      match rest with
      | c1 :: rest' =>
        if lo ≤ c1 ∧ c1 ≤ hi then
          match rest' with
          | c2 :: rest'' =>
            if isContByte c2 then b :: c1 :: c2 :: utf8Lossy fuel rest''
            else 0xEF :: 0xBF :: 0xBD :: utf8Lossy fuel rest'
          | [] => [0xEF, 0xBF, 0xBD]
        else 0xEF :: 0xBF :: 0xBD :: utf8Lossy fuel rest
      | [] => [0xEF, 0xBF, 0xBD]
    else if 0xF0 ≤ b ∧ b ≤ 0xF4 then
      let lo : Nat := if b = 0xF0 then 0x90 else 0x80
      let hi : Nat := if b = 0xF4 then 0x8F else 0xBF
      match rest with
      | c1 :: rest' =>
        if lo ≤ c1 ∧ c1 ≤ hi then
          match rest' with
          | c2 :: rest'' =>
            if isContByte c2 then
              match rest'' with
              | c3 :: rest''' =>
                if isContByte c3 then b :: c1 :: c2 :: c3 :: utf8Lossy fuel rest'''
                else 0xEF :: 0xBF :: 0xBD :: utf8Lossy fuel rest''
              | [] => [0xEF, 0xBF, 0xBD]
            else 0xEF :: 0xBF :: 0xBD :: utf8Lossy fuel rest'
          | [] => [0xEF, 0xBF, 0xBD]
        else 0xEF :: 0xBF :: 0xBD :: utf8Lossy fuel rest
      | [] => [0xEF, 0xBF, 0xBD]
    else 0xEF :: 0xBF :: 0xBD :: utf8Lossy fuel rest

/-- The escape replacement of `escape_scalar_string`: the seven escaped
characters and their two-byte replacements. -/
def escMap (b : Nat) : Option (List Nat) :=
  if b = 0x5C then some [0x5C, 0x5C]
  else if b = 0x22 then some [0x5C, 0x22]
  else if b = 0x08 then some [0x5C, 98]
  else if b = 0x0C then some [0x5C, 102]
  else if b = 0x0A then some [0x5C, 110]
  else if b = 0x0D then some [0x5C, 114]
  else if b = 0x09 then some [0x5C, 116]
  else none

/-- The scan loop of `escape_scalar_string`: unescaped segments pass
through `from_utf8_lossy`, escapes are substituted. -/
def escapeLoop : Nat → List Nat → List Nat → List Nat
  | 0, _, pending => utf8Lossy (pending.length + 1) pending.reverse
  | fuel + 1, s, pending =>
    match s with
    | [] => utf8Lossy (pending.length + 1) pending.reverse
    | b :: rest =>
      match escMap b with
      | some esc =>
        utf8Lossy (pending.length + 1) pending.reverse ++ esc ++
          escapeLoop fuel rest []
      | none => escapeLoop fuel rest (b :: pending)

/-- Embedding of `escape_scalar_string` on the payload slice: a double
quote, the escaped lossy content, a double quote. -/
def escapeScalarString (slice : List Nat) : List Nat :=
  0x22 :: escapeLoop (slice.length + 1) slice [] ++ [0x22]

/-- ASCII decimal digits of a natural number (fuel-based so that it
reduces definitionally). -/
def natDigitsAux : Nat → Nat → List Nat
  | 0, _ => []
  | fuel + 1, n =>
    if n < 10 then [48 + n] else natDigitsAux fuel (n / 10) ++ [48 + n % 10]

/-- ASCII decimal digits of a natural number. -/
def natDigits (n : Nat) : List Nat := natDigitsAux (n + 1) n

/-- Modelled from the spec (`Number`'s `Display` lives in the missing
`number.rs`; §4.4: "number→string uses the number's canonical textual
form"): integers print in decimal; a float prints its integer part, and
when the value is not an integer a decimal expansion of up to 17
fractional digits with trailing zeros trimmed stands in for the shortest
round-trip representation (no claim settled here formats a float). -/
def fmtNumber : JNumber → List Nat
  | .int64 i => if i < 0 then 45 :: natDigits (-i).toNat else natDigits i.toNat
  | .uint64 u => natDigits u
  | .float64 q =>
    let sign : List Nat := if q < 0 then [45] else []
    let a : ℚ := |q|
    let ip : Nat := ⌊a⌋.toNat
    let fr : ℚ := a - ⌊a⌋
    if fr = 0 then sign ++ natDigits ip
    else
      let scaled : Nat := ⌊fr * 10 ^ 17⌋.toNat
      let frDigits := natDigitsAux 18 scaled
      let padded := List.replicate (17 - frDigits.length) 48 ++ frDigits
      let trimmed := (padded.reverse.dropWhile (· = 48)).reverse
      sign ++ natDigits ip ++ [46] ++ trimmed
  | .nan => ascii "NaN"
  | .inf => ascii "inf"
  | .negInf => ascii "-inf"

/-- The pretty-printing options record (`PrettyOpts` of
`src/functions.rs`). -/
structure POpts where
  enabled : Bool
  indent : Nat

/-- `PrettyOpts::inc_indent`. -/
def POpts.incIndent (o : POpts) : POpts := ⟨o.enabled, o.indent + 2⟩

/-- `PrettyOpts::generate_indent`: that many spaces. -/
def POpts.genIndent (o : POpts) : List Nat := List.replicate o.indent 0x20

mutual

/-- Embedding of `container_to_string` of `src/functions.rs`: the
returned byte list is what the call appends to `json`.  The offsets are
absolute positions into `value`, exactly as in the source (a scalar
container delegates with JEntry offset `offset+4` and value offset
`offset+8`; arrays and objects walk their JEntry tables). -/
def containerToStringB (fuel : Nat) (value : List Nat) (offset : Nat)
    (opts : POpts) : Except JErr (List Nat) :=
  match fuel with
  | 0 => .error .recursionLimit
  | f + 1 => do
    let h ← readU32 value offset
    if headerType h = 0x20000000 then do
      let (txt, _, _) ← scalarToStringB f value (4 + offset) (8 + offset) opts
      .ok txt
    else if headerType h = 0x80000000 then do
      let body ← arrayToStringLoop f value (headerLen h) 0 (4 + offset)
        (4 + offset + 4 * headerLen h) opts.incIndent
      if opts.enabled then
        .ok ((ascii "[\n") ++ body ++ [0x0A] ++ opts.genIndent ++ [0x5D])
      else .ok (0x5B :: body ++ [0x5D])
    else if headerType h = 0x40000000 then do
      let kws ← readNWords value (4 + offset) (headerLen h)
      let body ← objectToStringLoop f value (headerLen h) 0
        (4 + offset + 4 * headerLen h) kws (4 + offset + 8 * headerLen h)
        (4 + offset + 8 * headerLen h + (kws.map jentryLen).sum) opts.incIndent
        opts.enabled
      if opts.enabled then
        .ok ([0x7B, 0x0A] ++ body ++ [0x0A] ++ opts.genIndent ++ [0x7D])
      else .ok (0x7B :: body ++ [0x7D])
    else .error .invalidJsonb
  termination_by structural fuel

/-- The element loop of the array branch: comma separators (with
newline and indentation in pretty mode) between the rendered
elements. -/
def arrayToStringLoop (fuel : Nat) (value : List Nat) (n i jo vo : Nat)
    (inner : POpts) : Except JErr (List Nat) :=
  match fuel with
  | 0 => .error .recursionLimit
  | f + 1 =>
    match n with
    | 0 => .ok []
    | n' + 1 => do
      let (txt, jo', vo') ← scalarToStringB f value jo vo inner
      let sep : List Nat :=
        if i = 0 then [] else if inner.enabled then [0x2C, 0x0A] else [0x2C]
      let pre : List Nat := if inner.enabled then inner.genIndent else []
      let rest ← arrayToStringLoop f value n' (i + 1) jo' vo' inner
      .ok (sep ++ pre ++ txt ++ rest)
  termination_by structural fuel

/-- The member loop of the object branch: each key is escaped and
followed by `:` (`: ` in pretty mode) and the rendered value; value
JEntry offsets continue after the key table. -/
def objectToStringLoop (fuel : Nat) (value : List Nat) (n i jo : Nat)
    (kws : List Nat) (ko vo : Nat) (inner : POpts) (outerPretty : Bool) :
    Except JErr (List Nat) :=
  match fuel with
  | 0 => .error .recursionLimit
  | f + 1 =>
    match n, kws with
    | 0, _ => .ok []
    | _ + 1, [] => .ok []
    | n' + 1, kw :: kws' => do
      let keyTxt := escapeScalarString ((value.drop ko).take (jentryLen kw))
      let (valTxt, jo', vo') ← scalarToStringB f value jo vo inner
      let sep : List Nat :=
        if i = 0 then [] else if outerPretty then [0x2C, 0x0A] else [0x2C]
      let pre : List Nat := if outerPretty then inner.genIndent else []
      let colon : List Nat := if outerPretty then [0x3A, 0x20] else [0x3A]
      let rest ← objectToStringLoop f value n' (i + 1) jo' kws'
        (ko + jentryLen kw) vo' inner outerPretty
      .ok (sep ++ pre ++ keyTxt ++ colon ++ valTxt ++ rest)
  termination_by structural fuel

/-- Embedding of `scalar_to_string`: renders one JEntry; note the
`_ => {}` arm of the source — an unknown JEntry type code appends
nothing and succeeds; the offsets advance by 4 and the JEntry length. -/
def scalarToStringB (fuel : Nat) (value : List Nat) (jo vo : Nat)
    (opts : POpts) : Except JErr (List Nat × Nat × Nat) :=
  match fuel with
  | 0 => .error .recursionLimit
  | f + 1 => do
    let w ← readU32 value jo
    let txt ←
      if jentryType w = 0x00000000 then .ok (ascii "null")
      else if jentryType w = 0x40000000 then .ok (ascii "true")
      else if jentryType w = 0x30000000 then .ok (ascii "false")
      else if jentryType w = 0x20000000 then do
        let n ← decodeNumber ((value.drop vo).take (jentryLen w))
        .ok (fmtNumber n)
      else if jentryType w = 0x10000000 then
        .ok (escapeScalarString ((value.drop vo).take (jentryLen w)))
      else if jentryType w = 0x50000000 then
        containerToStringB f value vo opts
      else .ok []
    .ok (txt, jo + 4, vo + jentryLen w)
  termination_by structural fuel

end

/-- Rust's `{:?}` (Debug) rendering of a string, modelled on the
payload bytes: quotes around the content with `\"`, `\\`, `\n`, `\r`,
`\t` escapes and `\u` escapes for other control bytes (sufficient for
the ASCII data exercised here). -/
def fmtDebugStr (s : List Nat) : List Nat :=
  0x22 :: s.flatMap (fun b =>
    if b = 0x22 then [0x5C, 0x22]
    else if b = 0x5C then [0x5C, 0x5C]
    else if b = 0x0A then [0x5C, 110]
    else if b = 0x0D then [0x5C, 114]
    else if b = 0x09 then [0x5C, 116]
    else if b < 0x20 then
      [0x5C, 117, 0x7B] ++ natDigits b ++ [0x7D]
    else [b]) ++ [0x22]

mutual

/-- Embedding of the `Display` implementation of `Value`
(`src/value.rs`): `null`/`true`/`false`, the number's textual form,
strings in Rust's `{:?}` (debug) form, `[`-separated arrays, and
objects whose keys are printed raw between quotes. -/
def fmtValue : Val → List Nat
  | .null => ascii "null"
  | .bool true => ascii "true"
  | .bool false => ascii "false"
  | .num n => fmtNumber n
  | .str s => fmtDebugStr s
  | .arr xs => 0x5B :: fmtValueList xs ++ [0x5D]
  | .obj es => 0x7B :: fmtValueObj es true ++ [0x7D]

/-- Comma-separated rendering of array elements. -/
def fmtValueList : List Val → List Nat
  | [] => []
  | [v] => fmtValue v
  | v :: rest => fmtValue v ++ [0x2C] ++ fmtValueList rest

/-- Comma-separated rendering of object members
(`"key":value`, the key bytes spliced raw). -/
def fmtValueObj : List (List Nat × Val) → Bool → List Nat
  | [], _ => []
  | (k, v) :: rest, first =>
    (if first then [] else [0x2C]) ++ 0x22 :: k ++ [0x22, 0x3A] ++ fmtValue v ++
      fmtValueObj rest false

end

/-- Embedding of `RawJsonb::to_string`: try the binary printer on the
raw bytes; on failure discard any partial output (`json.clear()`) and
fall back to the text parser, printing the parsed value; when that fails
too the result is exactly `null`. -/
def toStringBytes (value : List Nat) : List Nat :=
  match containerToStringB (value.length + 1) value 0 ⟨false, 0⟩ with
  | .ok json => json
  | .error _ =>
    match parseValue value with
    | .ok val => fmtValue val
    | .error _ => ascii "null"

/-! ## A well-formedness decoder for raw bytes, modelled from the
spec's invariants (§3): JEntry lengths exactly cover their payloads,
object keys are unique and sorted ascending, nested containers are
recursively well-formed and their on-wire length equals the enclosing
JEntry's length, and every JEntry type code is one of the six defined
codes. -/

/-- Split the key region into the key byte lists described by the key
JEntry words, returning the keys and the remaining (value) region. -/
def splitKeys : List Nat → List Nat → List (List Nat) × List Nat
  | [], region => ([], region)
  | w :: ws, region =>
    let (keys, rest) := splitKeys ws (region.drop (jentryLen w))
    (region.take (jentryLen w) :: keys, rest)

/-- Boolean strict sortedness of a key list. -/
def keysSortedB : List (List Nat) → Bool
  | [] => true
  | [_] => true
  | a :: b :: rest => listLt a b && keysSortedB (b :: rest)

mutual

/-- Decode and validate a whole container at the head of `bytes`,
requiring exact consumption. -/
def decodeContainer : Nat → List Nat → Except JErr Val
  | 0, _ => .error .recursionLimit
  | fuel + 1, bytes => do
    let h ← readU32 bytes 0
    if headerType h = 0x20000000 then do
      let je ← readU32 bytes 4
      let payload := bytes.drop 8
      if payload.length ≠ jentryLen je then .error .invalidJsonb
      else if jentryType je = 0x00000000 then
        if jentryLen je = 0 then .ok .null else .error .invalidJsonb
      else if jentryType je = 0x40000000 then
        if jentryLen je = 0 then .ok (.bool true) else .error .invalidJsonb
      else if jentryType je = 0x30000000 then
        if jentryLen je = 0 then .ok (.bool false) else .error .invalidJsonb
      else if jentryType je = 0x20000000 then do
        let n ← decodeNumber payload
        .ok (.num n)
      else if jentryType je = 0x10000000 then .ok (.str payload)
      else .error .invalidJsonbJEntry
    else if headerType h = 0x80000000 then do
      let jws ← readNWords bytes 4 (headerLen h)
      let payload := bytes.drop (4 + 4 * headerLen h)
      let (xs, rest) ← decodeElemList fuel bytes jws payload
      if rest.isEmpty then .ok (.arr xs) else .error .invalidJsonb
    else if headerType h = 0x40000000 then do
      let kws ← readNWords bytes 4 (headerLen h)
      let vws ← readNWords bytes (4 + 4 * headerLen h) (headerLen h)
      if kws.all (fun w => jentryType w = 0x10000000) then do
        let keyRegion := bytes.drop (4 + 8 * headerLen h)
        let (keys, valRegion) := splitKeys kws keyRegion
        if keyRegion.length < (kws.map jentryLen).sum then .error .invalidJsonb
        else do
          let (vs, rest) ← decodeElemList fuel bytes vws valRegion
          if rest.isEmpty ∧ keysSortedB keys then .ok (.obj (keys.zip vs))
          else .error .invalidJsonb
      else .error .invalidJsonbJEntry
    else .error .invalidJsonbHeader

/-- Decode the payload sequence described by a JEntry word list,
returning the values and the unconsumed suffix. -/
def decodeElemList : Nat → List Nat → List Nat → List Nat →
    Except JErr (List Val × List Nat)
  | 0, _, _, _ => .error .recursionLimit
  | _ + 1, _, [], payload => .ok ([], payload)
  | fuel + 1, bytes, w :: ws, payload =>
    if payload.length < jentryLen w then .error .invalidJsonb
    else do
      let chunk := payload.take (jentryLen w)
      let v ←
        if jentryType w = 0x00000000 then
          if jentryLen w = 0 then .ok Val.null else .error .invalidJsonb
        else if jentryType w = 0x40000000 then
          if jentryLen w = 0 then .ok (Val.bool true) else .error .invalidJsonb
        else if jentryType w = 0x30000000 then
          if jentryLen w = 0 then .ok (Val.bool false) else .error .invalidJsonb
        else if jentryType w = 0x20000000 then do
          let n ← decodeNumber chunk
          .ok (Val.num n)
        else if jentryType w = 0x10000000 then .ok (Val.str chunk)
        else if jentryType w = 0x50000000 then decodeContainer fuel chunk
        else .error .invalidJsonbJEntry
      let (vs, rest) ← decodeElemList fuel bytes ws (payload.drop (jentryLen w))
      .ok (v :: vs, rest)

end

/-- Well-formed JSONB bytes: the validating decoder succeeds. -/
def wellFormedJsonb (bytes : List Nat) : Bool :=
  (decodeContainer (bytes.length + 1) bytes).isOk

/-- First-success choice on lookups (the shape of "the right value wins
unless absent"). -/
def orO (a b : Option Val) : Option Val :=
  match a with
  | some v => some v
  | none => b

/-- The member list of an object value (empty for other values). -/
def objEntries : Val → List (List Nat × Val)
  | .obj es => es
  | _ => []

/-- Whether a value is an array container. -/
def isArrayV : Val → Bool
  | .arr _ => true
  | _ => false

/-- Whether a value is an object container. -/
def isObjectV : Val → Bool
  | .obj _ => true
  | _ => false

mutual

/-- Simultaneous induction for `Val` and the two list shapes nested in
it (the generated recursor does not cover the nested lists). -/
def valInd (P : Val → Prop) (Q : List Val → Prop)
    (R : List (List Nat × Val) → Prop)
    (hnull : P .null) (hbool : ∀ b, P (.bool b)) (hnum : ∀ n, P (.num n))
    (hstr : ∀ s, P (.str s))
    (harr : ∀ xs, Q xs → P (.arr xs))
    (hobj : ∀ es, R es → P (.obj es))
    (hqnil : Q []) (hqcons : ∀ v vs, P v → Q vs → Q (v :: vs))
    (hrnil : R []) (hrcons : ∀ k v es, P v → R es → R ((k, v) :: es))
    (v : Val) : P v :=
  match v with
  | .null => hnull
  | .bool b => hbool b
  | .num n => hnum n
  | .str s => hstr s
  | .arr xs => harr xs
      (valIndList P Q R hnull hbool hnum hstr harr hobj hqnil hqcons hrnil hrcons xs)
  | .obj es => hobj es
      (valIndEntries P Q R hnull hbool hnum hstr harr hobj hqnil hqcons hrnil hrcons es)
  termination_by structural v

/-- Element-list leg of `valInd`. -/
def valIndList (P : Val → Prop) (Q : List Val → Prop)
    (R : List (List Nat × Val) → Prop)
    (hnull : P .null) (hbool : ∀ b, P (.bool b)) (hnum : ∀ n, P (.num n))
    (hstr : ∀ s, P (.str s))
    (harr : ∀ xs, Q xs → P (.arr xs))
    (hobj : ∀ es, R es → P (.obj es))
    (hqnil : Q []) (hqcons : ∀ v vs, P v → Q vs → Q (v :: vs))
    (hrnil : R []) (hrcons : ∀ k v es, P v → R es → R ((k, v) :: es))
    (xs : List Val) : Q xs :=
  match xs with
  | [] => hqnil
  | v :: vs => hqcons v vs
      (valInd P Q R hnull hbool hnum hstr harr hobj hqnil hqcons hrnil hrcons v)
      (valIndList P Q R hnull hbool hnum hstr harr hobj hqnil hqcons hrnil hrcons vs)
  termination_by structural xs

/-- Member-list leg of `valInd`. -/
def valIndEntries (P : Val → Prop) (Q : List Val → Prop)
    (R : List (List Nat × Val) → Prop)
    (hnull : P .null) (hbool : ∀ b, P (.bool b)) (hnum : ∀ n, P (.num n))
    (hstr : ∀ s, P (.str s))
    (harr : ∀ xs, Q xs → P (.arr xs))
    (hobj : ∀ es, R es → P (.obj es))
    (hqnil : Q []) (hqcons : ∀ v vs, P v → Q vs → Q (v :: vs))
    (hrnil : R []) (hrcons : ∀ k v es, P v → R es → R ((k, v) :: es))
    (es : List (List Nat × Val)) : R es :=
  match es with
  | [] => hrnil
  | (k, v) :: rest => hrcons k v rest
      (valInd P Q R hnull hbool hnum hstr harr hobj hqnil hqcons hrnil hrcons v)
      (valIndEntries P Q R hnull hbool hnum hstr harr hobj hqnil hqcons hrnil hrcons rest)
  termination_by structural es

end

mutual

/-- Tree-level well-formedness of a `Val` (§3, invariant 2): every
object's keys are unique and sorted ascending in byte order, at every
nesting depth. -/
def wfTree (v : Val) : Bool :=
  match v with
  | .obj es => keysSortedB (es.map Prod.fst) && wfObjEntries es
  | .arr xs => wfList xs
  | _ => true
  termination_by structural v

/-- `wfTree` over an array's elements. -/
def wfList (xs : List Val) : Bool :=
  match xs with
  | [] => true
  | v :: rest => wfTree v && wfList rest
  termination_by structural xs

/-- `wfTree` over an object's member values. -/
def wfObjEntries (es : List (List Nat × Val)) : Bool :=
  match es with
  | [] => true
  | (_, v) :: rest => wfTree v && wfObjEntries rest
  termination_by structural es

end

/-! ## Order lemmas for the byte-wise key comparison -/

theorem natCompare_eq_iff {a b : Nat} : natCompare a b = .eq ↔ a = b := by
  unfold natCompare
  split_ifs with h1 h2 <;> simp <;> omega

theorem natCompare_lt_iff {a b : Nat} : natCompare a b = .lt ↔ a < b := by
  unfold natCompare
  split_ifs with h1 h2 <;> simp <;> omega

theorem natCompare_gt_iff {a b : Nat} : natCompare a b = .gt ↔ b < a := by
  unfold natCompare
  split_ifs with h1 h2 <;> simp <;> omega

theorem natCompare_swap (a b : Nat) : natCompare b a = (natCompare a b).swap := by
  unfold natCompare
  by_cases h1 : a < b
  · simp [h1, show ¬ b < a by omega, show b ≠ a by omega, Ordering.swap]
  · by_cases h2 : a = b
    · subst h2
      simp [Ordering.swap]
    · simp [h1, h2, show b < a by omega, Ordering.swap]

theorem listCompare_refl (a : List Nat) : listCompare a a = .eq := by
  induction a with
  | nil => rfl
  | cons x xs ih =>
    simp only [listCompare]
    rw [natCompare_eq_iff.mpr rfl]
    exact ih

theorem listCompare_eq_iff {a b : List Nat} : listCompare a b = .eq ↔ a = b := by
  induction a generalizing b with
  | nil => cases b <;> simp [listCompare]
  | cons x xs ih =>
    cases b with
    | nil => simp [listCompare]
    | cons y ys =>
      simp only [listCompare]
      rcases h : natCompare x y with _ | _ | _
      · have hx : x ≠ y := by
          have := natCompare_lt_iff.mp h
          omega
        simp [hx]
      · have hx := natCompare_eq_iff.mp h
        subst hx
        simp [ih]
      · have hx : x ≠ y := by
          have := natCompare_gt_iff.mp h
          omega
        simp [hx]

theorem listCompare_swap (a b : List Nat) :
    listCompare b a = (listCompare a b).swap := by
  induction a generalizing b with
  | nil => cases b <;> simp [listCompare, Ordering.swap]
  | cons x xs ih =>
    cases b with
    | nil => simp [listCompare, Ordering.swap]
    | cons y ys =>
      simp only [listCompare, natCompare_swap x y]
      rcases natCompare x y <;> simp [Ordering.swap, ih]

theorem listCompare_trans_lt {a b c : List Nat} (h1 : listCompare a b = .lt)
    (h2 : listCompare b c = .lt) : listCompare a c = .lt := by
  induction a generalizing b c with
  | nil =>
    cases b with
    | nil => simp [listCompare] at h1
    | cons y ys => cases c <;> simp_all [listCompare]
  | cons x xs ih =>
    cases b with
    | nil => simp [listCompare] at h1
    | cons y ys =>
      cases c with
      | nil => simp [listCompare] at h2
      | cons z zs =>
        simp only [listCompare] at h1 h2 ⊢
        rcases hxy : natCompare x y with _ | _ | _ <;> rw [hxy] at h1
        · have hx := natCompare_lt_iff.mp hxy
          rcases hyz : natCompare y z with _ | _ | _ <;> rw [hyz] at h2
          · have hy := natCompare_lt_iff.mp hyz
            rw [natCompare_lt_iff.mpr (by omega)]
          · have hy := natCompare_eq_iff.mp hyz
            rw [natCompare_lt_iff.mpr (by omega)]
          · change Ordering.gt = Ordering.lt at h2
            cases h2
        · -- `x = y`: the head comparison of the goal is that of `h2`;
          -- the `lt` case is closed by the rewrite itself.
          have hx := natCompare_eq_iff.mp hxy
          subst hx
          rcases hyz : natCompare x z with _ | _ | _ <;> rw [hyz] at h2
          · exact ih h1 h2
          · change Ordering.gt = Ordering.lt at h2
            cases h2
        · change Ordering.gt = Ordering.lt at h1
          cases h1

/-- The Boolean key order in terms of the comparison. -/
theorem listLt_iff {a b : List Nat} : listLt a b = true ↔ listCompare a b = .lt := by
  unfold listLt
  cases h : listCompare a b <;> decide

/-- `listLt` transitivity, phrased on the Boolean order. -/
theorem listLt_trans {a b c : List Nat} (h1 : listLt a b = true)
    (h2 : listLt b c = true) : listLt a c = true := by
  rw [listLt_iff] at h1 h2 ⊢
  exact listCompare_trans_lt h1 h2

/-- `listLt` irreflexivity. -/
theorem listLt_irrefl (a : List Nat) : listLt a a = false := by
  unfold listLt
  rw [listCompare_refl]
  rfl

/-- `listLt` asymmetry: a strictly smaller key is not also larger. -/
theorem listLt_asymm {a b : List Nat} (h : listLt a b = true) :
    listLt b a = false := by
  have h' : listCompare a b = .lt := listLt_iff.mp h
  unfold listLt
  rw [listCompare_swap, h']
  rfl

/-- A strictly smaller key is a different key. -/
theorem listLt_ne {a b : List Nat} (h : listLt a b = true) : a ≠ b := by
  intro he
  subst he
  simp [listLt_irrefl] at h

/-- Trichotomy for the key order: keys neither below nor equal are
above. -/
theorem listLt_of_not_lt_ne {a b : List Nat} (h1 : listLt a b = false)
    (h2 : a ≠ b) : listLt b a = true := by
  cases h : listCompare a b with
  | lt =>
    have := listLt_iff.mpr h
    rw [this] at h1
    cases h1
  | eq => exact absurd (listCompare_eq_iff.mp h) h2
  | gt =>
    rw [listLt_iff, listCompare_swap, h]
    rfl

/-- The boolean adjacent-sortedness check equals full pairwise strict
order (by transitivity of the key order). -/
theorem keysSortedB_iff_pairwise (ks : List (List Nat)) :
    keysSortedB ks = true ↔ ks.Pairwise (fun a b => listLt a b = true) := by
  induction ks with
  | nil => simp [keysSortedB]
  | cons a t ih =>
    cases t with
    | nil => simp [keysSortedB]
    | cons b rest =>
      constructor
      · intro h
        have hab : listLt a b = true := by
          have := h
          simp only [keysSortedB, Bool.and_eq_true] at this
          exact this.1
        have hrest : keysSortedB (b :: rest) = true := by
          simp only [keysSortedB, Bool.and_eq_true] at h
          exact h.2
        have hp := ih.mp hrest
        refine List.pairwise_cons.mpr ⟨?_, hp⟩
        intro x hx
        rcases List.mem_cons.mp hx with rfl | hx
        · exact hab
        · exact listLt_trans hab ((List.pairwise_cons.mp hp).1 x hx)
      · intro h
        rcases List.pairwise_cons.mp h with ⟨hall, hrest⟩
        simp only [keysSortedB, Bool.and_eq_true]
        exact ⟨hall b (by simp), ih.mpr hrest⟩

/-- Inserting a key greater than every stored key appends. -/
theorem insertEntry_append (l : List (List Nat × Val)) (k : List Nat) (v : Val)
    (h : ∀ p ∈ l, listLt p.1 k = true) :
    insertEntry l (k, v) = l ++ [(k, v)] := by
  induction l with
  | nil => rfl
  | cons hd rest ih =>
    rcases hd with ⟨k', v'⟩
    have hk' : listLt k' k = true := h (k', v') (by simp)
    simp only [insertEntry]
    rw [if_neg, if_neg]
    · rw [ih (fun p hp => h p (List.mem_cons_of_mem _ hp))]
      rfl
    · exact fun he => (listLt_ne hk') he.symm
    · simp [listLt_asymm hk']

/-- Folding sorted pushes whose keys all exceed the accumulator's keys
appends them verbatim. -/
theorem foldl_insertEntry_eq_append (es acc : List (List Nat × Val))
    (hcross : ∀ p ∈ acc, ∀ q ∈ es, listLt p.1 q.1 = true)
    (hes : es.Pairwise (fun p q => listLt p.1 q.1 = true)) :
    List.foldl insertEntry acc es = acc ++ es := by
  induction es generalizing acc with
  | nil => simp
  | cons e es' ih =>
    rcases e with ⟨k, v⟩
    rcases List.pairwise_cons.mp hes with ⟨hhead, htail⟩
    simp only [List.foldl_cons]
    rw [insertEntry_append acc k v (fun p hp => hcross p hp (k, v) (by simp))]
    rw [ih (acc ++ [(k, v)]) ?_ htail]
    · simp
    · intro p hp q hq
      rcases List.mem_append.mp hp with hp | hp
      · exact hcross p hp q (List.mem_cons_of_mem _ hq)
      · rcases List.mem_singleton.mp hp with rfl
        exact hhead q hq

/-- The object builder is the identity on an already sorted,
duplicate-free member list. -/
theorem buildObject_eq_self (es : List (List Nat × Val))
    (hes : es.Pairwise (fun p q => listLt p.1 q.1 = true)) :
    buildObject es = es := by
  show List.foldl insertEntry [] es = es
  rw [foldl_insertEntry_eq_append es [] (by simp) hes]
  rfl

/-- Dropping null members keeps a sub-list of the keys. -/
theorem specStripObj_keys_sublist (es : List (List Nat × Val)) :
    ((specStripObj es).map Prod.fst).Sublist (es.map Prod.fst) := by
  induction es with
  | nil => simp [specStripObj]
  | cons e rest ih =>
    rcases e with ⟨k, v⟩
    cases v with
    | null => simpa [specStripObj] using ih.cons k
    | bool b => exact ih.cons₂ k
    | num n => exact ih.cons₂ k
    | str s => exact ih.cons₂ k
    | arr xs => exact ih.cons₂ k
    | obj os => exact ih.cons₂ k

/-! # Theorems for the specification's claims -/

/-- Left value of the comparable-key collision: the array
`["a", "b"]`. -/
def c1Left : Val := .arr [.str (ascii "a"), .str (ascii "b")]

/-- Right value of the comparable-key collision: the one-element array
`["a\x01\x04b"]` (the string contains the bytes `0x01` and `0x04`,
which are exactly a depth byte and the `STRING_LEVEL` byte of the
comparable-key encoding). -/
def c1Right : Val := .arr [.str (ascii "a\x01\x04b")]

/-- C1: the claim that `compare(a, b)` always equals the lexicographic
comparison of the `convert_to_comparable` images fails on the code:
for the well-formed values `["a", "b"]` and `["a\x01\x04b"]`, `compare`
(both the tree-level comparator and the byte-level `compare` on their
encodings) returns `Less`, yet `convert_to_comparable` produces the very
same byte string `[0, 6, 1, 4, 97, 1, 4, 98]` for both — string payloads
carry no length prefix, so the element boundary is indistinguishable
from string content — and the lexicographic comparison returns
`Equal`. -/
theorem c1_comparable_key_not_faithful :
    compareVals c1Left c1Right = .lt ∧
    compareJsonb (encodeVal c1Left) (encodeVal c1Right) = .ok .lt ∧
    convertToComparable c1Left = convertToComparable c1Right ∧
    convertToComparable c1Left = [0, 6, 1, 4, 97, 1, 4, 98] ∧
    listCompare (convertToComparable c1Left) (convertToComparable c1Right) = .eq :=
  ⟨rfl, rfl, rfl, rfl, rfl⟩

/-- C2: the parser does produce the recursive-descent step
`Path::DescentField` for `$..a`, but `Selector::select` evaluated on the
object `{"a": 1}` — where the claim says every subtree is walked and the
member named `a` is emitted — reaches the `_ => unreachable!()` arm of
`select_path`, a panic, instead of returning a result set. -/
theorem c2_descent_field_select_panics :
    parseJsonPath (chars "$..a") = .ok [.root, .descentField ['a']] ∧
    selectTree [.root, .descentField ['a']] (.obj [(ascii "a", .num (.uint64 1))]) =
      .error .panicUnreachable :=
  ⟨rfl, rfl⟩

/-- C3: of the seven comparison operators of the path grammar, filters
using `==`, `!=`, `<`, `>` and `=~` parse, but `<=` and `>=` are
rejected: the `alt` in `op` tries `tag("<")` before `tag("<=")` (and
`tag(">")` before `tag(">=")`), the single-character tag succeeds and is
committed to, and the remaining `= 10` cannot parse as an operand, so
`parse_json_path` fails on the whole path. -/
theorem c3_le_ge_filters_rejected :
    (parseJsonPath (chars "$[?(@.a == 10)]")).isOk = true ∧
    (parseJsonPath (chars "$[?(@.a != 10)]")).isOk = true ∧
    (parseJsonPath (chars "$[?(@.a < 10)]")).isOk = true ∧
    (parseJsonPath (chars "$[?(@.a > 10)]")).isOk = true ∧
    (parseJsonPath (chars "$[?(@.a =~ 'abc')]")).isOk = true ∧
    parseJsonPath (chars "$[?(@.a <= 10)]") = .error .invalidJsonPath ∧
    parseJsonPath (chars "$[?(@.a >= 10)]") = .error .invalidJsonPath :=
  ⟨rfl, rfl, rfl, rfl, rfl, rfl, rfl⟩

/-- The claim's top-level category ranking, greatest first:
scalar-null > array > object > string > number > true > false
(spec §4.6; written from the claim's words, to be compared against the
comparator). -/
def specRank : Val → Nat
  | .null => 6
  | .arr _ => 5
  | .obj _ => 4
  | .str _ => 3
  | .num _ => 2
  | .bool true => 1
  | .bool false => 0

/-- C4: `compare` orders the top-level categories greatest-first as
scalar-null > array > object > string > number > true > false — any two
values of categories ranked `ra > rb` compare `Greater`, whatever their
contents.  The four concrete examples hold (at tree level and, for the
encodings, at byte level), and arrays compare element-wise over the
common prefix — the first unequal element decides, an equal head defers
to the tails, and an exhausted shorter array is `Less`. -/
theorem c4_category_order :
    (∀ a b : Val, specRank a > specRank b → compareVals a b = .gt) ∧
    compareVals .null (.arr []) = .gt ∧
    compareVals (.arr [.num (.uint64 1), .num (.uint64 2)])
      (.arr [.num (.uint64 1), .num (.uint64 2), .num (.uint64 3)]) = .lt ∧
    compareVals (.obj [(ascii "a", .num (.uint64 1))])
      (.obj [(ascii "a", .num (.uint64 2))]) = .lt ∧
    compareVals (.str (ascii "10")) (.num (.uint64 10)) = .gt ∧
    compareJsonb (encodeVal .null) (encodeVal (.arr [])) = .ok .gt ∧
    compareJsonb (encodeVal (.arr [.num (.uint64 1), .num (.uint64 2)]))
      (encodeVal (.arr [.num (.uint64 1), .num (.uint64 2), .num (.uint64 3)])) =
      .ok .lt ∧
    compareJsonb (encodeVal (.obj [(ascii "a", .num (.uint64 1))]))
      (encodeVal (.obj [(ascii "a", .num (.uint64 2))])) = .ok .lt ∧
    compareJsonb (encodeVal (.str (ascii "10"))) (encodeVal (.num (.uint64 10))) =
      .ok .gt ∧
    (∀ (x y : Val) (xs ys : List Val), compareVals x y ≠ .eq →
      compareVals (.arr (x :: xs)) (.arr (y :: ys)) = compareVals x y) ∧
    (∀ (x y : Val) (xs ys : List Val), compareVals x y = .eq →
      compareVals (.arr (x :: xs)) (.arr (y :: ys)) =
        compareVals (.arr xs) (.arr ys)) ∧
    (∀ (z : Val) (zs : List Val), compareVals (.arr []) (.arr (z :: zs)) = .lt) := by
  refine ⟨?_, rfl, rfl, rfl, rfl, rfl, rfl, rfl, rfl, ?_, ?_, ?_⟩
  · intro a b h
    rcases a with _ | ba | na | sa | xsa | esa <;>
      rcases b with _ | bb | nb | sb | xsb | esb <;>
      (try cases ba) <;> (try cases bb) <;>
      simp_all [specRank, compareVals, scalarLevel, natCompare]
  · intro x y xs ys h
    show (if (5 : Nat) ≠ 5 then _ else _) = _
    rw [if_neg (by omega)]
    show (match compareVals x y with
      | Ordering.eq => compareList xs ys
      | o => o) = compareVals x y
    rcases hc : compareVals x y <;> simp_all
  · intro x y xs ys h
    show (if (5 : Nat) ≠ 5 then _ else _) = _
    rw [if_neg (by omega)]
    show (match compareVals x y with
      | Ordering.eq => compareList xs ys
      | o => o) = _
    rw [h]
    show compareList xs ys = _
    show _ = (if (5 : Nat) ≠ 5 then _ else _)
    rw [if_neg (by omega)]
  · intro z zs
    rfl

/-- C4 (witness): the category rule at a concrete pair (an array above
an object) and the element-wise rule at a concrete unequal head. -/
theorem c4_category_order_witness :
    compareVals (.arr []) (.obj []) = .gt ∧
    compareVals (.arr [.bool true]) (.arr [.bool false, .null]) =
      compareVals (.bool true) (.bool false) :=
  ⟨c4_category_order.1 (.arr []) (.obj []) (by decide),
    c4_category_order.2.2.2.2.2.2.2.2.2.1 (.bool true) (.bool false) [] [.null]
      (by decide)⟩

/-- The specification's description of the case-insensitive lookup
(§4.4): first scan for an exact match; if absent, the first
ASCII-case-insensitive match in stored order wins; otherwise none. -/
def specGetByNameCI (es : List (List Nat × Val)) (name : List Nat) : Option Val :=
  match es.find? (fun kv => name == kv.1) with
  | some kv => some kv.2
  | none => (es.find? (fun kv => eqIgnoreAsciiCase name kv.1)).map (·.2)

/-- The scan loop started on a recorded candidate: an exact match still
overrides it, everything else keeps it (the `result.is_none()` guard
makes later case-insensitive matches dead). -/
theorem getEntryByNameLoop_some (es : List (List Nat × Val)) (name : List Nat)
    (r : Val) :
    getEntryByNameLoop name true es (some r) =
      match es.find? (fun kv => name == kv.1) with
      | some kv => some kv.2
      | none => some r := by
  induction es with
  | nil => rfl
  | cons kv rest ih =>
    rcases kv with ⟨k, v⟩
    by_cases hk : name = k
    · subst hk
      simp [getEntryByNameLoop, List.find?]
    · simp [getEntryByNameLoop, List.find?, hk, Ne.symm hk, ih,
        show (name == k) = false by simpa using hk]

/-- C6: on any object, `get_by_name` with `ignore_case = true` computes
exactly the specification's rule — the exactly matching member's value
when one exists, else the first ASCII-case-insensitive match in stored
order, else `None`; in particular `{"Foo":1,"foo":2}` yields `2` for
`"foo"` (exact wins) and `{"Foo":1}` yields `1`. -/
theorem c6_get_by_name_exact_then_ci :
    (∀ es name, getByName (.obj es) name true = specGetByNameCI es name) ∧
    getByName (.obj [(ascii "Foo", .num (.uint64 1)), (ascii "foo", .num (.uint64 2))])
      (ascii "foo") true = some (.num (.uint64 2)) ∧
    getByName (.obj [(ascii "Foo", .num (.uint64 1))]) (ascii "foo") true =
      some (.num (.uint64 1)) := by
  refine ⟨?_, rfl, rfl⟩
  intro es name
  show getEntryByNameLoop name true es none = specGetByNameCI es name
  induction es with
  | nil => rfl
  | cons kv rest ih =>
    rcases kv with ⟨k, v⟩
    by_cases hk : name = k
    · subst hk
      simp [getEntryByNameLoop, specGetByNameCI, List.find?]
    · by_cases hci : eqIgnoreAsciiCase name k = true
      · simp only [getEntryByNameLoop, if_neg hk, Bool.true_and,
          Option.isNone_none, Bool.and_true]
        rw [if_pos hci, getEntryByNameLoop_some]
        simp [specGetByNameCI, List.find?, hci,
          show (name == k) = false by simpa using hk]
      · simp only [getEntryByNameLoop, if_neg hk, Bool.true_and,
          Option.isNone_none, Bool.and_true]
        rw [if_neg hci, ih]
        simp [specGetByNameCI, List.find?,
          show eqIgnoreAsciiCase name k = false by simpa using hci,
          show (name == k) = false by simpa using hk]

/-- On trees whose objects are sorted and duplicate-free, the source's
strip dispatch agrees with the specification's recursive null-removal
(the object builder applied on finalization is the identity there). -/
theorem stripValC_eq_spec :
    ∀ v : Val, wfTree v = true → stripValC v = specStripNulls v := by
  refine valInd
    (fun v => wfTree v = true → stripValC v = specStripNulls v)
    (fun xs => wfList xs = true → stripArr xs = specStripArrList xs)
    (fun es => wfObjEntries es = true → stripObjEntries es = specStripObj es)
    ?_ ?_ ?_ ?_ ?_ ?_ ?_ ?_ ?_ ?_
  · intro _; rfl
  · intro b _; rfl
  · intro n _; rfl
  · intro s _; rfl
  · intro xs hq h
    have hx : wfList xs = true := h
    show Val.arr (stripArr xs) = Val.arr (specStripArrList xs)
    rw [hq hx]
  · intro es hr h
    have h' : (keysSortedB (es.map Prod.fst) && wfObjEntries es) = true := h
    rw [Bool.and_eq_true] at h'
    rcases h' with ⟨hks, hwf⟩
    show Val.obj (buildObject (stripObjEntries es)) = Val.obj (specStripObj es)
    rw [hr hwf, buildObject_eq_self]
    have hpk := (keysSortedB_iff_pairwise _).mp hks
    have hpk2 := hpk.sublist (specStripObj_keys_sublist es)
    exact List.pairwise_map.mp hpk2
  · intro _; rfl
  · intro v vs hp hq h
    have h' : (wfTree v && wfList vs) = true := h
    rw [Bool.and_eq_true] at h'
    rcases h' with ⟨h1, h2⟩
    show stripValC v :: stripArr vs = specStripNulls v :: specStripArrList vs
    rw [hp h1, hq h2]
  · intro _; rfl
  · intro k v es hp hr h
    have h' : (wfTree v && wfObjEntries es) = true := h
    rw [Bool.and_eq_true] at h'
    rcases h' with ⟨h1, h2⟩
    cases v with
    | null => exact hr h2
    | bool b =>
      show ((k, stripValC (.bool b)) :: stripObjEntries es :
          List (List Nat × Val)) = (k, specStripNulls (.bool b)) :: specStripObj es
      rw [hp h1, hr h2]
    | num n =>
      show ((k, stripValC (.num n)) :: stripObjEntries es :
          List (List Nat × Val)) = (k, specStripNulls (.num n)) :: specStripObj es
      rw [hp h1, hr h2]
    | str s =>
      show ((k, stripValC (.str s)) :: stripObjEntries es :
          List (List Nat × Val)) = (k, specStripNulls (.str s)) :: specStripObj es
      rw [hp h1, hr h2]
    | arr xs =>
      show ((k, stripValC (.arr xs)) :: stripObjEntries es :
          List (List Nat × Val)) = (k, specStripNulls (.arr xs)) :: specStripObj es
      rw [hp h1, hr h2]
    | obj os =>
      show ((k, stripValC (.obj os)) :: stripObjEntries es :
          List (List Nat × Val)) = (k, specStripNulls (.obj os)) :: specStripObj es
      rw [hp h1, hr h2]

/-- C7: on every well-formed value (objects sorted and duplicate-free at
every depth), `strip_nulls` computes exactly the specification's
recursive rule — object members with NULL value are dropped at any
nesting depth, NULL array elements and a top-level NULL scalar are kept;
in particular the object holding key a mapped to null and key b mapped
to the array of null and an inner object with c mapped to null and d
mapped to 1 strips to the object with only b, whose array keeps its null
and whose inner object keeps only d. -/
theorem c7_strip_nulls_recursive :
    (∀ v : Val, wfTree v = true → stripNulls v = specStripNulls v) ∧
    stripNulls (.obj [(ascii "a", .null),
        (ascii "b", .arr [.null, .obj [(ascii "c", .null),
          (ascii "d", .num (.uint64 1))]])]) =
      .obj [(ascii "b", .arr [.null, .obj [(ascii "d", .num (.uint64 1))]])] := by
  constructor
  · intro v h
    have hv : stripNulls v = stripValC v := by cases v <;> rfl
    rw [hv]
    exact stripValC_eq_spec v h
  · rfl

/-- C7 (witness): the universal part applied to the concrete sorted
object with key a mapped to null and key b mapped to true, its
well-formedness discharged by evaluation. -/
theorem c7_strip_nulls_recursive_witness :
    wfTree (.obj [(ascii "a", .null), (ascii "b", .bool true)]) = true ∧
    stripNulls (.obj [(ascii "a", .null), (ascii "b", .bool true)]) =
      specStripNulls (.obj [(ascii "a", .null), (ascii "b", .bool true)]) :=
  ⟨rfl, c7_strip_nulls_recursive.1
    (.obj [(ascii "a", .null), (ascii "b", .bool true)]) rfl⟩

theorem orO_assoc (a b c : Option Val) : orO (orO a b) c = orO a (orO b c) := by
  cases a <;> rfl

theorem orO_none_right (a : Option Val) : orO a none = a := by
  cases a <;> rfl

/-- A sorted insert-or-replace shifts the lookup: the inserted key now
maps to the inserted value, everything else is unchanged. -/
theorem alookup_insertEntry (l : List (List Nat × Val)) (kv : List Nat × Val)
    (k : List Nat) :
    alookup k (insertEntry l kv) = if k = kv.1 then some kv.2 else alookup k l := by
  induction l with
  | nil => simp [insertEntry, alookup]
  | cons hd rest ih =>
    rcases hd with ⟨k', v'⟩
    simp only [insertEntry]
    by_cases hlt : listLt kv.1 k' = true
    · rw [if_pos hlt]
      simp [alookup]
    · rw [if_neg hlt]
      by_cases heq : kv.1 = k'
      · rw [if_pos heq]
        by_cases hk : k = kv.1 <;> simp [alookup, hk, ← heq]
      · rw [if_neg heq]
        by_cases hk : k = k' <;> by_cases hk2 : k = kv.1 <;>
          simp_all [alookup]

theorem alookup_append (k : List Nat) (l₁ l₂ : List (List Nat × Val)) :
    alookup k (l₁ ++ l₂) = orO (alookup k l₁) (alookup k l₂) := by
  induction l₁ with
  | nil => simp [alookup, orO]
  | cons hd rest ih =>
    rcases hd with ⟨k', v'⟩
    by_cases hk : k = k' <;> simp [alookup, orO, hk, ih]

/-- Folding `ObjectBuilder` pushes: the accumulated lookup is the
last-pushed binding (lookup on the reversed pushes), falling back to the
accumulator. -/
theorem alookup_foldl (ps : List (List Nat × Val)) (acc : List (List Nat × Val))
    (k : List Nat) :
    alookup k (List.foldl insertEntry acc ps) =
      orO (alookup k ps.reverse) (alookup k acc) := by
  induction ps generalizing acc with
  | nil => simp [alookup, orO]
  | cons p ps' ih =>
    simp only [List.foldl_cons, List.reverse_cons]
    rw [ih, alookup_append, orO_assoc]
    congr 1
    rw [alookup_insertEntry]
    by_cases hk : k = p.1 <;> simp [alookup, orO, hk]

/-- The built object's lookup is the last-pushed binding. -/
theorem alookup_buildObject (ps : List (List Nat × Val)) (k : List Nat) :
    alookup k (buildObject ps) = alookup k ps.reverse := by
  rw [show buildObject ps = List.foldl insertEntry [] ps from rfl, alookup_foldl]
  simp [alookup, orO_none_right]

theorem alookup_none_of_not_mem (k : List Nat) (ps : List (List Nat × Val))
    (h : k ∉ ps.map Prod.fst) : alookup k ps = none := by
  induction ps with
  | nil => rfl
  | cons p rest ih =>
    simp only [List.map_cons, List.mem_cons] at h
    push_neg at h
    simp [alookup, h.1, ih h.2]

/-- With duplicate-free keys, first-match and last-match lookups
agree. -/
theorem alookup_reverse_of_nodup (ps : List (List Nat × Val)) (k : List Nat)
    (h : (ps.map Prod.fst).Nodup) : alookup k ps.reverse = alookup k ps := by
  induction ps with
  | nil => rfl
  | cons p ps' ih =>
    simp only [List.map_cons, List.nodup_cons] at h
    simp only [List.reverse_cons]
    rw [alookup_append, ih h.2]
    by_cases hk : k = p.1
    · subst hk
      rw [alookup_none_of_not_mem _ _ h.1]
      simp [alookup, orO]
    · simp [alookup, orO_none_right, hk]

/-- C5: the five cases of `concat`.  Object with object yields the union
of the members with the right object's value winning on duplicate keys
(stated through lookups, for any duplicate-free member lists); array
with array concatenates element-wise; a non-array left is prepended as a
single element to an array right; a non-array right is appended to an
array left; two non-arrays form the two-element array (the listed cases
apply in order, so the object-with-object case takes precedence over the
final one). -/
theorem c5_concat_cases :
    (∀ xs ys k, (xs.map Prod.fst).Nodup → (ys.map Prod.fst).Nodup →
      alookup k (objEntries (concatVals (.obj xs) (.obj ys))) =
        orO (alookup k ys) (alookup k xs)) ∧
    (∀ xs ys : List Val, concatVals (.arr xs) (.arr ys) = .arr (xs ++ ys)) ∧
    (∀ (v : Val) (ys : List Val), isArrayV v = false →
      concatVals v (.arr ys) = .arr (v :: ys)) ∧
    (∀ (xs : List Val) (v : Val), isArrayV v = false →
      concatVals (.arr xs) v = .arr (xs ++ [v])) ∧
    (∀ v w : Val, isArrayV v = false → isArrayV w = false →
      (isObjectV v = false ∨ isObjectV w = false) →
      concatVals v w = .arr [v, w]) := by
  refine ⟨?_, ?_, ?_, ?_, ?_⟩
  · intro xs ys k hx hy
    show alookup k (buildObject (xs ++ ys)) = _
    rw [alookup_buildObject, List.reverse_append, alookup_append,
      alookup_reverse_of_nodup _ _ hy, alookup_reverse_of_nodup _ _ hx]
  · intro xs ys
    rfl
  · intro v ys h
    cases v <;> first
      | rfl
      | simp [isArrayV] at h
  · intro xs v h
    cases v <;> first
      | rfl
      | simp [isArrayV] at h
  · intro v w hv hw hvw
    cases v <;> cases w <;> first
      | rfl
      | (simp [isArrayV] at hv; done)
      | (simp [isArrayV] at hw; done)
      | (rcases hvw with h | h <;> simp [isObjectV] at h)

/-- C5 (witness): the cases at concrete inputs — two one-member objects
with the same key (the right value wins), a number prepended to an
array, a boolean appended to an array, and two scalars forming a
two-element array. -/
theorem c5_concat_cases_witness :
    alookup (ascii "a")
      (objEntries (concatVals (.obj [(ascii "a", .num (.uint64 1))])
        (.obj [(ascii "a", .num (.uint64 2))]))) =
      orO (alookup (ascii "a") [(ascii "a", .num (.uint64 2))])
        (alookup (ascii "a") [(ascii "a", .num (.uint64 1))]) ∧
    concatVals (.num (.uint64 5)) (.arr [.null]) =
      .arr [.num (.uint64 5), .null] ∧
    concatVals (.arr [.null]) (.bool true) = .arr [.null, .bool true] ∧
    concatVals (.bool false) (.str (ascii "x")) =
      .arr [.bool false, .str (ascii "x")] :=
  ⟨c5_concat_cases.1 [(ascii "a", .num (.uint64 1))]
      [(ascii "a", .num (.uint64 2))] (ascii "a") (by simp) (by simp),
    c5_concat_cases.2.2.1 (.num (.uint64 5)) [.null] (by decide),
    c5_concat_cases.2.2.2.1 [.null] (.bool true) (by decide),
    c5_concat_cases.2.2.2.2 (.bool false) (.str (ascii "x")) (by decide)
      (by decide) (Or.inl (by decide))⟩

/-- Members of an insert-or-replace result come from the stored list or
are the inserted pair. -/
theorem mem_insertEntry {l : List (List Nat × Val)} {kv q : List Nat × Val}
    (hq : q ∈ insertEntry l kv) : q ∈ l ∨ q = kv := by
  induction l with
  | nil =>
    simp only [insertEntry, List.mem_singleton] at hq
    exact Or.inr hq
  | cons hd rest ih =>
    rcases hd with ⟨k, v⟩
    simp only [insertEntry] at hq
    by_cases hlt : listLt kv.1 k = true
    · rw [if_pos hlt] at hq
      rcases List.mem_cons.mp hq with rfl | hq
      · exact Or.inr rfl
      · exact Or.inl hq
    · rw [if_neg hlt] at hq
      by_cases he : kv.1 = k
      · rw [if_pos he] at hq
        rcases List.mem_cons.mp hq with rfl | hq
        · exact Or.inr rfl
        · exact Or.inl (List.mem_cons_of_mem _ hq)
      · rw [if_neg he] at hq
        rcases List.mem_cons.mp hq with rfl | hq
        · exact Or.inl (List.mem_cons_self _ _)
        · rcases ih hq with hq | hq
          · exact Or.inl (List.mem_cons_of_mem _ hq)
          · exact Or.inr hq

/-- Sorted insert-or-replace preserves strict key sortedness. -/
theorem insertEntry_sorted (l : List (List Nat × Val)) (kv : List Nat × Val)
    (h : l.Pairwise (fun p q => listLt p.1 q.1 = true)) :
    (insertEntry l kv).Pairwise (fun p q => listLt p.1 q.1 = true) := by
  induction l with
  | nil => simp [insertEntry]
  | cons hd rest ih =>
    rcases hd with ⟨k, v⟩
    rcases List.pairwise_cons.mp h with ⟨hhead, htail⟩
    simp only [insertEntry]
    by_cases hlt : listLt kv.1 k = true
    · rw [if_pos hlt]
      refine List.pairwise_cons.mpr ⟨?_, h⟩
      intro q hq
      rcases List.mem_cons.mp hq with rfl | hq
      · exact hlt
      · exact listLt_trans hlt (hhead q hq)
    · rw [if_neg hlt]
      by_cases he : kv.1 = k
      · rw [if_pos he]
        refine List.pairwise_cons.mpr ⟨?_, htail⟩
        intro q hq
        show listLt kv.1 q.1 = true
        rw [he]
        exact hhead q hq
      · rw [if_neg he]
        refine List.pairwise_cons.mpr ⟨?_, ih htail⟩
        intro q hq
        rcases mem_insertEntry hq with hq | rfl
        · exact hhead q hq
        · exact listLt_of_not_lt_ne (by simpa using hlt) he

/-- Folding inserts into a sorted accumulator keeps it sorted. -/
theorem foldl_insertEntry_sorted (ps acc : List (List Nat × Val))
    (hacc : acc.Pairwise (fun p q => listLt p.1 q.1 = true)) :
    (List.foldl insertEntry acc ps).Pairwise (fun p q => listLt p.1 q.1 = true) := by
  induction ps generalizing acc with
  | nil => exact hacc
  | cons p ps' ih => exact ih _ (insertEntry_sorted acc p hacc)

/-- The object builder always emits a strictly key-sorted member list. -/
theorem buildObject_sorted (ps : List (List Nat × Val)) :
    (buildObject ps).Pairwise (fun p q => listLt p.1 q.1 = true) :=
  foldl_insertEntry_sorted ps [] (by simp)

theorem orO_none_left (a : Option Val) : orO none a = a := rfl

/-- Any error of the insert-position scan is the duplicate-key error,
raised only with the update flag unset on a stored key. -/
theorem scanInsertPos_error_val (u : Bool) (nk : List Nat) :
    ∀ (ks : List (List Nat)) (e : JErr),
      scanInsertPos u nk ks = .error e →
      e = .objectDuplicateKey ∧ u = false ∧ nk ∈ ks := by
  intro ks
  induction ks with
  | nil => intro e h; simp [scanInsertPos] at h
  | cons k rest ih =>
    intro e h
    simp only [scanInsertPos] at h
    by_cases he : nk = k
    · rw [if_pos he] at h
      cases u with
      | true => simp at h
      | false =>
        simp only [Bool.false_eq_true, if_false, Except.error.injEq] at h
        exact ⟨h.symm, rfl, by simp [he]⟩
    · rw [if_neg he] at h
      by_cases hlt : listLt k nk = true
      · rw [if_pos hlt] at h
        cases hrec : scanInsertPos u nk rest with
        | error e' =>
          rw [hrec] at h
          simp only [Except.error.injEq] at h
          rcases ih e' hrec with ⟨h1, h2, h3⟩
          exact ⟨h ▸ h1, h2, List.mem_cons_of_mem _ h3⟩
        | ok p =>
          rw [hrec] at h
          rcases p with ⟨i, d⟩
          simp at h
      · rw [if_neg hlt] at h
        simp at h

/-- With the update flag unset, a stored key makes the scan fail with
the duplicate-key error (on a sorted key list). -/
theorem scanInsertPos_error_of_mem (nk : List Nat) :
    ∀ ks : List (List Nat),
      ks.Pairwise (fun a b => listLt a b = true) → nk ∈ ks →
      scanInsertPos false nk ks = .error .objectDuplicateKey := by
  intro ks
  induction ks with
  | nil => intro _ hm; cases hm
  | cons k rest ih =>
    intro hp hm
    rcases List.pairwise_cons.mp hp with ⟨hhead, htail⟩
    by_cases he : nk = k
    · simp [scanInsertPos, he]
    · have hm' : nk ∈ rest := by
        rcases List.mem_cons.mp hm with rfl | hm'
        · exact absurd rfl he
        · exact hm'
      have hlt : listLt k nk = true := hhead nk hm'
      simp only [scanInsertPos, if_neg he, if_pos hlt, ih htail hm']

/-- A scan reporting a duplicate pinpoints the stored key: the keys
split as `pre ++ nk :: post` with the index at `pre` and every earlier
key below the new one. -/
theorem scanInsertPos_ok_true_decomp (u : Bool) (nk : List Nat) :
    ∀ (ks : List (List Nat)) (i : Nat),
      scanInsertPos u nk ks = .ok (i, true) →
      ∃ pre post, ks = pre ++ nk :: post ∧ i = pre.length ∧
        ∀ x ∈ pre, listLt x nk = true := by
  intro ks
  induction ks with
  | nil => intro i h; simp [scanInsertPos] at h
  | cons k rest ih =>
    intro i h
    simp only [scanInsertPos] at h
    by_cases he : nk = k
    · rw [if_pos he] at h
      cases u with
      | true =>
        simp only [if_true, Except.ok.injEq, Prod.mk.injEq] at h
        refine ⟨[], rest, by rw [he]; rfl, by simp [h.1], by simp⟩
      | false => simp at h
    · rw [if_neg he] at h
      by_cases hlt : listLt k nk = true
      · rw [if_pos hlt] at h
        cases hrec : scanInsertPos u nk rest with
        | error e => rw [hrec] at h; simp at h
        | ok p =>
          rcases p with ⟨i', d⟩
          rw [hrec] at h
          simp only [Except.ok.injEq, Prod.mk.injEq] at h
          rcases h with ⟨hi, hd⟩
          subst hd
          rcases ih i' hrec with ⟨pre, post, hks, hlen, hall⟩
          refine ⟨k :: pre, post, by rw [hks]; rfl, by simp [← hi, hlen], ?_⟩
          intro x hx
          rcases List.mem_cons.mp hx with rfl | hx
          · exact hlt
          · exact hall x hx
      · rw [if_neg hlt] at h
        simp at h

/-- A scan reporting no duplicate (on a sorted key list) proves the new
key absent: every key before the index is below it, every key from the
index on is above it. -/
theorem scanInsertPos_ok_false_char (u : Bool) (nk : List Nat) :
    ∀ (ks : List (List Nat)) (i : Nat),
      ks.Pairwise (fun a b => listLt a b = true) →
      scanInsertPos u nk ks = .ok (i, false) →
      (∀ x ∈ ks.take i, listLt x nk = true) ∧ nk ∉ ks ∧
        (∀ x ∈ ks.drop i, listLt nk x = true) := by
  intro ks
  induction ks with
  | nil =>
    intro i _ h
    simp only [scanInsertPos, Except.ok.injEq, Prod.mk.injEq] at h
    refine ⟨by simp, by simp, by simp⟩
  | cons k rest ih =>
    intro i hp h
    rcases List.pairwise_cons.mp hp with ⟨hhead, htail⟩
    simp only [scanInsertPos] at h
    by_cases he : nk = k
    · rw [if_pos he] at h
      cases u <;> simp at h
    · rw [if_neg he] at h
      by_cases hlt : listLt k nk = true
      · rw [if_pos hlt] at h
        cases hrec : scanInsertPos u nk rest with
        | error e => rw [hrec] at h; simp at h
        | ok p =>
          rcases p with ⟨i', d⟩
          rw [hrec] at h
          simp only [Except.ok.injEq, Prod.mk.injEq] at h
          rcases h with ⟨hi, hd⟩
          subst hd
          rcases ih i' htail hrec with ⟨h1, h2, h3⟩
          refine ⟨?_, ?_, ?_⟩
          · intro x hx
            rw [← hi] at hx
            simp only [List.take_succ_cons, List.mem_cons] at hx
            rcases hx with rfl | hx
            · exact hlt
            · exact h1 x hx
          · intro hm
            rcases List.mem_cons.mp hm with rfl | hm
            · exact he rfl
            · exact h2 hm
          · intro x hx
            rw [← hi] at hx
            simp only [List.drop_succ_cons] at hx
            exact h3 x hx
      · rw [if_neg hlt] at h
        simp only [Except.ok.injEq, Prod.mk.injEq] at h
        rcases h with ⟨hi, _⟩
        have hnk : listLt nk k = true :=
          listLt_of_not_lt_ne (by simpa using hlt) (fun hh => he hh.symm)
        refine ⟨?_, ?_, ?_⟩
        · intro x hx
          rw [← hi] at hx
          simp at hx
        · intro hm
          rcases List.mem_cons.mp hm with rfl | hm
          · exact he rfl
          · exact hlt (hhead nk hm)
        · intro x hx
          rw [← hi] at hx
          simp only [List.drop_zero] at hx
          rcases List.mem_cons.mp hx with rfl | hx
          · exact hnk
          · exact listLt_trans hnk (hhead x hx)

/-- Lookups on the rebuilt member list around an inserted pair: the new
key finds the new value; any other key falls back to the flanks. -/
theorem insertResult_lookups (pre post : List (List Nat × Val)) (nk : List Nat)
    (nv : Val)
    (hpost : ∀ x ∈ post.map Prod.fst, listLt nk x = true)
    (hpn : (pre.map Prod.fst).Nodup) (hpostn : (post.map Prod.fst).Nodup) :
    alookup nk (buildObject (pre ++ (nk, nv) :: post)) = some nv ∧
    (∀ k, k ≠ nk →
      alookup k (buildObject (pre ++ (nk, nv) :: post)) =
        orO (alookup k post) (alookup k pre)) := by
  have hrev : ∀ k, alookup k (buildObject (pre ++ (nk, nv) :: post)) =
      orO (alookup k post.reverse)
        (if k = nk then some nv else alookup k pre.reverse) := by
    intro k
    rw [alookup_buildObject, List.reverse_append, List.reverse_cons,
      alookup_append, alookup_append, orO_assoc]
    congr 1
    by_cases hk : k = nk <;> simp [alookup, orO, hk]
  constructor
  · rw [hrev nk]
    have hnone : alookup nk post.reverse = none := by
      apply alookup_none_of_not_mem
      intro hm
      rw [List.map_reverse, List.mem_reverse] at hm
      exact absurd (hpost nk hm) (by simp [listLt_irrefl])
    rw [hnone, if_pos rfl]
    rfl
  · intro k hk
    rw [hrev k, if_neg hk, alookup_reverse_of_nodup post k hpostn,
      alookup_reverse_of_nodup pre k hpn]

/-- C8: on every object whose keys are sorted and duplicate-free,
`object_insert` fails (with `ObjectDuplicateKey`) exactly when the key
is already stored and the update flag is unset; on success the emitted
object maps the new key to the new value, maps every other key as
before, and its keys are again unique and sorted ascending. -/
theorem c8_object_insert :
    ∀ (es : List (List Nat × Val)) (nk : List Nat) (nv : Val) (u : Bool),
      keysSortedB (es.map Prod.fst) = true →
      (objectInsert (.obj es) nk nv u = .error .objectDuplicateKey ↔
        (nk ∈ es.map Prod.fst ∧ u = false)) ∧
      (∀ zs, objectInsert (.obj es) nk nv u = .ok zs →
        alookup nk (objEntries zs) = some nv ∧
        (∀ k, k ≠ nk → alookup k (objEntries zs) = alookup k es) ∧
        keysSortedB ((objEntries zs).map Prod.fst) = true) := by
  intro es nk nv u hs
  have hp : (es.map Prod.fst).Pairwise (fun a b => listLt a b = true) :=
    (keysSortedB_iff_pairwise _).mp hs
  constructor
  · constructor
    · intro h
      cases hscan : scanInsertPos u nk (es.map Prod.fst) with
      | error e =>
        rcases scanInsertPos_error_val u nk _ e hscan with ⟨_, h2, h3⟩
        exact ⟨h3, h2⟩
      | ok p =>
        rcases p with ⟨idx, dup⟩
        cases dup <;> simp [objectInsert, hscan] at h
    · rintro ⟨hmem, hu⟩
      subst hu
      have hscan := scanInsertPos_error_of_mem nk _ hp hmem
      simp [objectInsert, hscan]
  · intro zs hz
    cases hscan : scanInsertPos u nk (es.map Prod.fst) with
    | error e => simp [objectInsert, hscan] at hz
    | ok p =>
      rcases p with ⟨idx, dup⟩
      cases dup with
      | true =>
        simp only [objectInsert, hscan, if_true, Except.ok.injEq] at hz
        subst hz
        rcases scanInsertPos_ok_true_decomp u nk _ idx hscan with
          ⟨preK, postK, hdec, hlen, hallpre⟩
        rw [hdec] at hp
        rcases List.pairwise_append.mp hp with ⟨hpPre, hpRest, hcross⟩
        rcases List.pairwise_cons.mp hpRest with ⟨hnkpost, hpPost⟩
        have htk : (es.take idx).map Prod.fst = preK := by
          rw [List.map_take, hdec, hlen, List.take_left]
        have hdk : (es.drop idx).map Prod.fst = nk :: postK := by
          rw [List.map_drop, hdec, hlen, List.drop_left]
        cases hE : es.drop idx with
        | nil => rw [hE] at hdk; cases hdk
        | cons m rest' =>
          rw [hE] at hdk
          simp only [List.map_cons, List.cons.injEq] at hdk
          rcases hdk with ⟨hm1, hrk⟩
          have hdrop1 : es.drop (idx + 1) = rest' := by
            rw [← List.drop_drop, hE]
            rfl
          rw [hdrop1]
          have hres := insertResult_lookups (es.take idx) rest' nk nv
            (by rw [hrk]; exact hnkpost)
            (by rw [htk]; exact hpPre.imp (fun h => listLt_ne h))
            (by rw [hrk]; exact hpPost.imp (fun h => listLt_ne h))
          refine ⟨hres.1, ?_, ?_⟩
          · intro k hk
            rw [show objEntries (Val.obj (buildObject
                (es.take idx ++ (nk, nv) :: rest'))) =
              buildObject (es.take idx ++ (nk, nv) :: rest') from rfl]
            rw [hres.2 k hk]
            conv_rhs => rw [← List.take_append_drop idx es, hE]
            rw [alookup_append]
            show _ = orO (alookup k (es.take idx))
              (if k = m.1 then some m.2 else alookup k rest')
            rw [if_neg (by rw [hm1]; exact hk)]
            by_cases hkp : k ∈ preK
            · have hknp : k ∉ postK := by
                intro hkq
                have h1 := hcross k hkp nk (List.mem_cons_self _ _)
                have h2 := hcross k hkp k (List.mem_cons_of_mem _ hkq)
                simp [listLt_irrefl] at h2
              have : alookup k rest' = none :=
                alookup_none_of_not_mem k rest' (by rw [hrk]; exact hknp)
              rw [this, orO_none_left, orO_none_right]
            · have : alookup k (es.take idx) = none :=
                alookup_none_of_not_mem k _ (by rw [htk]; exact hkp)
              rw [this, orO_none_left, orO_none_right]
          · show keysSortedB ((buildObject
              (es.take idx ++ (nk, nv) :: rest')).map Prod.fst) = true
            rw [keysSortedB_iff_pairwise, List.pairwise_map]
            exact buildObject_sorted _
      | false =>
        simp only [objectInsert, hscan, Bool.false_eq_true, if_false,
          Except.ok.injEq] at hz
        subst hz
        rcases scanInsertPos_ok_false_char u nk _ idx hp hscan with
          ⟨hpre, hnmem, hpost⟩
        have htk : (es.take idx).map Prod.fst = (es.map Prod.fst).take idx :=
          List.map_take _ _ _
        have hdk : (es.drop idx).map Prod.fst = (es.map Prod.fst).drop idx :=
          List.map_drop _ _ _
        have hnd : (es.map Prod.fst).Nodup := hp.imp (fun h => listLt_ne h)
        have hres := insertResult_lookups (es.take idx) (es.drop idx) nk nv
          (by rw [hdk]; exact hpost)
          (by rw [htk]; exact hnd.sublist (List.take_sublist _ _))
          (by rw [hdk]; exact hnd.sublist (List.drop_sublist _ _))
        refine ⟨hres.1, ?_, ?_⟩
        · intro k hk
          rw [show objEntries (Val.obj (buildObject
              (es.take idx ++ (nk, nv) :: es.drop idx))) =
            buildObject (es.take idx ++ (nk, nv) :: es.drop idx) from rfl]
          rw [hres.2 k hk]
          conv_rhs => rw [← List.take_append_drop idx es]
          rw [alookup_append]
          by_cases hkp : k ∈ (es.map Prod.fst).take idx
          · have hknp : k ∉ (es.map Prod.fst).drop idx := by
              intro hkq
              have hnd2 := hnd
              rw [← List.take_append_drop idx (es.map Prod.fst)] at hnd2
              rcases List.nodup_append.mp hnd2 with ⟨_, _, hdisj⟩
              exact hdisj hkp hkq
            have : alookup k (es.drop idx) = none :=
              alookup_none_of_not_mem k _ (by rw [hdk]; exact hknp)
            rw [this, orO_none_left, orO_none_right]
          · have : alookup k (es.take idx) = none :=
              alookup_none_of_not_mem k _ (by rw [htk]; exact hkp)
            rw [this, orO_none_left, orO_none_right]
        · show keysSortedB ((buildObject
            (es.take idx ++ (nk, nv) :: es.drop idx)).map Prod.fst) = true
          rw [keysSortedB_iff_pairwise, List.pairwise_map]
          exact buildObject_sorted _

/-- C8 (witness): inserting key b into the sorted object with keys a and
c — the sortedness hypothesis discharged by evaluation — yields b mapped
to the new value, a and c unchanged, keys sorted; and inserting the
stored key a with the update flag unset fails with the duplicate-key
error. -/
theorem c8_object_insert_witness :
    keysSortedB (([(ascii "a", Val.null), (ascii "c", Val.bool true)].map
        Prod.fst)) = true ∧
    (objectInsert (.obj [(ascii "a", Val.null), (ascii "c", Val.bool true)])
        (ascii "a") (.num (.uint64 7)) false = .error .objectDuplicateKey ↔
      (ascii "a" ∈ [(ascii "a", Val.null), (ascii "c", Val.bool true)].map
          Prod.fst ∧ false = false)) ∧
    (∀ zs, objectInsert (.obj [(ascii "a", Val.null), (ascii "c", Val.bool true)])
        (ascii "b") (.num (.uint64 7)) false = .ok zs →
      alookup (ascii "b") (objEntries zs) = some (.num (.uint64 7)) ∧
      (∀ k, k ≠ ascii "b" → alookup k (objEntries zs) =
        alookup k [(ascii "a", Val.null), (ascii "c", Val.bool true)]) ∧
      keysSortedB ((objEntries zs).map Prod.fst) = true) :=
  ⟨rfl,
    (c8_object_insert [(ascii "a", Val.null), (ascii "c", Val.bool true)]
      (ascii "a") (.num (.uint64 7)) false rfl).1,
    (c8_object_insert [(ascii "a", Val.null), (ascii "c", Val.bool true)]
      (ascii "b") (.num (.uint64 7)) false rfl).2⟩

/-- C9 (counterexample): `compare` can return an error although the
left input's first byte is not a container prefix — parse the text
`true`, then fail with `InvalidEOF` reading the header of the corrupt
JSONB-prefixed right operand `[0x20]`. -/
theorem c9_error_despite_text_left :
    isJsonb (ascii "true") = false ∧
    compareJsonb (ascii "true") [0x20] = .error .invalidEof :=
  ⟨rfl, rfl⟩

/-- C9 (amended): the error-free guarantees that do hold.  When neither
first byte is a container prefix: two text-parse failures fall back to
plain byte-wise comparison, and exactly one failure orders the failing
side less (left) or the parsed side greater (right).  When exactly one
operand is non-JSONB and fails to parse, the result is likewise `Less`
for a failing left and `Greater` for a failing right, whatever the other
operand's bytes. -/
theorem c9_text_fallback_dispatch :
    (∀ l r e₁ e₂, isJsonb l = false → isJsonb r = false →
      parseValue l = .error e₁ → parseValue r = .error e₂ →
      compareJsonb l r = .ok (listCompare l r)) ∧
    (∀ l r e v, isJsonb l = false → isJsonb r = false →
      parseValue l = .error e → parseValue r = .ok v →
      compareJsonb l r = .ok .lt) ∧
    (∀ l r v e, isJsonb l = false → isJsonb r = false →
      parseValue l = .ok v → parseValue r = .error e →
      compareJsonb l r = .ok .gt) ∧
    (∀ l r e, isJsonb l = false → isJsonb r = true →
      parseValue l = .error e → compareJsonb l r = .ok .lt) ∧
    (∀ l r e, isJsonb l = true → isJsonb r = false →
      parseValue r = .error e → compareJsonb l r = .ok .gt) := by
  refine ⟨?_, ?_, ?_, ?_, ?_⟩
  · intro l r e₁ e₂ hl hr pl pr
    have h : (l.length + r.length) * 8 + 64 = (l.length + r.length) * 8 + 63 + 1 := by
      omega
    rw [compareJsonb, h]
    simp only [compareBytesTop, hl, hr, pl, pr]
  · intro l r e v hl hr pl pr
    have h : (l.length + r.length) * 8 + 64 = (l.length + r.length) * 8 + 63 + 1 := by
      omega
    rw [compareJsonb, h]
    simp only [compareBytesTop, hl, hr, pl, pr]
  · intro l r v e hl hr pl pr
    have h : (l.length + r.length) * 8 + 64 = (l.length + r.length) * 8 + 63 + 1 := by
      omega
    rw [compareJsonb, h]
    simp only [compareBytesTop, hl, hr, pl, pr]
  · intro l r e hl hr pl
    have h : (l.length + r.length) * 8 + 64 = (l.length + r.length) * 8 + 63 + 1 := by
      omega
    rw [compareJsonb, h]
    simp only [compareBytesTop, hl, hr, pl]
  · intro l r e hl hr pr
    have h : (l.length + r.length) * 8 + 64 = (l.length + r.length) * 8 + 63 + 1 := by
      omega
    rw [compareJsonb, h]
    simp only [compareBytesTop, hl, hr, pr]

/-- C9 (witness): the amended dispatch at concrete inputs — two
unparsable texts compare byte-wise (`"x" < "y"`), and an unparsable text
against well-formed JSONB bytes is `Less`. -/
theorem c9_text_fallback_dispatch_witness :
    compareJsonb (ascii "x") (ascii "y") = .ok (listCompare (ascii "x") (ascii "y")) ∧
    compareJsonb (ascii "zzz") (encodeVal .null) = .ok .lt :=
  ⟨c9_text_fallback_dispatch.1 (ascii "x") (ascii "y") .invalidJson .invalidJson
      rfl rfl rfl rfl,
    c9_text_fallback_dispatch.2.2.2.1 (ascii "zzz") (encodeVal .null) .invalidJson
      rfl rfl rfl⟩

/-- C10 (counterexample): the bytes `[0x20,0,0,0, 0x60,0,0,0]` — a
scalar container whose JEntry carries the undefined type code
`0x60000000` — are not well-formed JSONB and are not parsable JSON text,
yet `to_string` returns the empty string, not `"null"`: the binary
printer's `_ => {}` arm silently skips the unknown JEntry and succeeds,
so the fallback never runs. -/
theorem c10_to_string_empty_not_null :
    wellFormedJsonb [0x20, 0, 0, 0, 0x60, 0, 0, 0] = false ∧
    parseValue [0x20, 0, 0, 0, 0x60, 0, 0, 0] = .error .invalidJson ∧
    toStringBytes [0x20, 0, 0, 0, 0x60, 0, 0, 0] = [] ∧
    toStringBytes [0x20, 0, 0, 0, 0x60, 0, 0, 0] ≠ ascii "null" :=
  ⟨rfl, rfl, rfl, by decide⟩

/-- C10 (amended): `to_string` is total by construction, and whenever
the binary printer fails — rather than: whenever the bytes are not
well-formed — the partial output is discarded, and if the text parse
fails too the result is exactly `"null"`. -/
theorem c10_to_string_null_fallback :
    ∀ bytes e₁ e₂,
      containerToStringB (bytes.length + 1) bytes 0 ⟨false, 0⟩ = .error e₁ →
      parseValue bytes = .error e₂ →
      toStringBytes bytes = ascii "null" := by
  intro bytes e₁ e₂ h₁ h₂
  rw [toStringBytes, h₁, h₂]

/-- C10 (witness): the empty input fails the binary printer and the
text parse, and prints `"null"`. -/
theorem c10_to_string_null_fallback_witness :
    toStringBytes [] = ascii "null" :=
  c10_to_string_null_fallback [] .invalidEof .invalidJson rfl rfl
